import Mathlib

/-
Verification of the swc legacy-decorators lowering pass
(src/crates/swc_ecma_transforms_proposal/src/decorators/legacy/mod.rs).

The Rust pass is a stateful AST fold (`impl Fold for Legacy`).  We embed the
AST fragment the pass manipulates (expressions, class members, statements,
module items) and translate the pass line by line:

  * `handle`        ~ `Legacy::handle`        (mod.rs lines 261-820)
  * `applyDecs`     ~ `Legacy::apply`         (mod.rs lines 823-864)
  * `foldStmts` etc ~ `Legacy::fold_stmt_like`(mod.rs lines 225-257)
  * `foldModule`    ~ `fold_module`           (mod.rs lines 126-159)
  * `foldScript`    ~ `fold_script`           (mod.rs lines 201-217)
  * `foldModuleItem`~ `fold_module_item`      (mod.rs lines 161-195)
  * `foldDecl`      ~ `fold_decl`             (mod.rs lines 89-112)
  * `foldExpr`      ~ `fold_expr`             (mod.rs lines 114-124)

The pass is modelled with the reflection-metadata mode disabled
(`decorators(metadata: false)`); the metadata sub-transform lives in
`decorators/legacy/metadata.rs`, which is an external collaborator per the
spec (section 6) and is invoked before any of the logic the claims cover.
For the same reason the enum-kind collection (`impl Visit for Legacy`) is
omitted: its result feeds only the metadata sub-transform.

Rust spans are dropped (the pass emits DUMMY_SP everywhere); hygiene marks of
`private_ident!` are modelled by a fresh-name counter in the pass state.
-/

namespace SwcLegacyDec

/-- Identifier: symbol plus syntax context (models the swc `Ident` with its
hygiene mark; `private_ident!` produces idents with a fresh context). -/
structure Ident where
  sym : String
  ctxt : Nat
deriving DecidableEq, Repr

/-- Literals (swc `Lit`), restricted to the shapes the pass produces/inspects. -/
inductive Lit where
  | str (s : String)
  | num (n : Int)
  | boolL (b : Bool)
  | nullL
deriving DecidableEq, Repr

/-- swc `VarDeclKind`. -/
inductive VarKind where
  | varK | letK | constK
deriving DecidableEq, Repr

/-- Patterns, restricted to binding idents and rest-of-ident (the only shapes
the pass builds; `default_constructor` uses a rest parameter). -/
inductive Pat where
  | id (i : Ident)
  | restId (i : Ident)
deriving DecidableEq, Repr

mutual
/-- swc `Expr`, restricted to the constructors the pass builds or matches on. -/
inductive Expr where
  | identE (i : Ident)
  | lit (l : Lit)
  | thisE
  | assign (lhs : Ident) (rhs : Expr)
  | bin (op : String) (l : Expr) (r : Expr)
  | cond (t : Expr) (c : Expr) (a : Expr)
  | call (callee : Callee) (args : List Expr)
  | member (obj : Expr) (prop : String)
  | seq (exprs : List Expr)
  | array (elems : List Expr)
  | object (props : List ObjProp)
  | fnE (nm : Option Ident) (f : Fn)
  | classE (ident : Option Ident) (k : ClassK)
  | unary (op : String) (e : Expr)
  | spread (e : Expr)

/-- swc `Callee`: an expression callee or `super`. -/
inductive Callee where
  | cexpr (e : Expr)
  | csuper

/-- Key-value property of an object literal. -/
inductive ObjProp where
  | kv (key : String) (v : Expr)

/-- swc `Function`: parameters, decorators, optional body. -/
inductive Fn where
  | mk (params : List Param) (decorators : List Expr) (body : Option (List Stmt))

/-- swc `Param`: decorators plus pattern. -/
inductive Param where
  | mk (decorators : List Expr) (pat : Pat)

/-- swc `PropName`. -/
inductive PropName where
  | idKey (s : String)
  | strKey (s : String)
  | numKey (n : Int)
  | computed (e : Expr)

/-- swc `ClassMember`.  Decorators are modelled directly as their expressions
(a swc `Decorator` is an expression plus a span). -/
inductive ClassMember where
  | ctorM (params : List Param) (body : Option (List Stmt))
  | method (key : PropName) (isStatic : Bool) (f : Fn)
  | propM (key : PropName) (isStatic : Bool) (decorators : List Expr) (value : Option Expr)
  | privateMethod (nm : String) (isStatic : Bool) (f : Fn)
  | privateProp (nm : String) (isStatic : Bool) (decorators : List Expr) (value : Option Expr)
  | emptyM

/-- swc `Class`: decorators, members, optional superclass. -/
inductive ClassK where
  | mk (decorators : List Expr) (body : List ClassMember) (superClass : Option Expr)

/-- swc `Stmt`, restricted. -/
inductive Stmt where
  | exprS (e : Expr)
  | declS (d : Decl)
  | ret (e : Option Expr)
  | block (stmts : List Stmt)
  | emptyS

/-- swc `Decl`, restricted. -/
inductive Decl where
  | classD (ident : Ident) (k : ClassK)
  | varD (kind : VarKind) (decls : List VarDeclarator)
  | fnD (ident : Ident) (f : Fn)

/-- swc `VarDeclarator`: binding name plus optional init expression. -/
inductive VarDeclarator where
  | mk (nm : Ident) (ini : Option Expr)
end

/-- swc `ExportSpecifier::Named`: original binding, optional exported name. -/
structure ExportSpecifier where
  orig : Ident
  exported : Option String
deriving DecidableEq, Repr

/-- swc `ModuleItem`, restricted to plain statements, default-export class
declarations and named export lists (the shapes `fold_module_item` builds or
matches on). -/
inductive ModuleItem where
  | stmt (s : Stmt)
  | exportDefaultClass (ident : Option Ident) (k : ClassK)
  | exportNamed (specifiers : List ExportSpecifier)

/-- swc `Module`. -/
structure Module where
  body : List ModuleItem

/-- swc `Script`. -/
structure Script where
  body : List Stmt

def Param.decorators : Param → List Expr
  | .mk ds _ => ds

def Param.pat : Param → Pat
  | .mk _ p => p

/-! ## Decorator counting

`decE` and friends count every decorator occurring anywhere in a subtree
(each decorator counts one plus the decorators nested inside its own
expression).  `contains_decorator` / `DecoratorFinder` live in
`src/crates/swc_ecma_transforms_proposal/src/decorators/mod.rs`, which is not
under src/; per the spec (section 4.5) it is "a cheap whole-subtree presence
check [that] determines whether any decorator occurs anywhere within the
list", so we model it as `decorator count is nonzero`. -/

mutual
def decE : Expr → Nat
  | .identE _ => 0
  | .lit _ => 0
  | .thisE => 0
  | .assign _ r => decE r
  | .bin _ l r => decE l + decE r
  | .cond t c a => decE t + decE c + decE a
  | .call c args => decCallee c + decEL args
  | .member o _ => decE o
  | .seq es => decEL es
  | .array es => decEL es
  | .object ps => decOPs ps
  | .fnE _ f => decFn f
  | .classE _ k => decClassK k
  | .unary _ e => decE e
  | .spread e => decE e

def decEL : List Expr → Nat
  | [] => 0
  | e :: es => decE e + decEL es

def decCallee : Callee → Nat
  | .cexpr e => decE e
  | .csuper => 0

def decOPs : List ObjProp → Nat
  | [] => 0
  | .kv _ v :: ps => decE v + decOPs ps

def decDecs : List Expr → Nat
  | [] => 0
  | e :: es => 1 + decE e + decDecs es

def decFn : Fn → Nat
  | .mk params decorators body => decParams params + decDecs decorators + decOBody body

def decParams : List Param → Nat
  | [] => 0
  | .mk ds _ :: ps => decDecs ds + decParams ps

def decOBody : Option (List Stmt) → Nat
  | none => 0
  | some ss => decSL ss

def decOptE : Option Expr → Nat
  | none => 0
  | some e => decE e

def decPropName : PropName → Nat
  | .computed e => decE e
  | _ => 0

def decMember : ClassMember → Nat
  | .ctorM params body => decParams params + decOBody body
  | .method key _ f => decPropName key + decFn f
  | .propM key _ ds v => decPropName key + decDecs ds + decOptE v
  | .privateMethod _ _ f => decFn f
  | .privateProp _ _ ds v => decDecs ds + decOptE v
  | .emptyM => 0

def decMembers : List ClassMember → Nat
  | [] => 0
  | m :: ms => decMember m + decMembers ms

def decClassK : ClassK → Nat
  | .mk decorators body superClass =>
    decDecs decorators + decMembers body + decOptE superClass

def decStmt : Stmt → Nat
  | .exprS e => decE e
  | .declS d => decDecl d
  | .ret e => decOptE e
  | .block ss => decSL ss
  | .emptyS => 0

def decSL : List Stmt → Nat
  | [] => 0
  | s :: ss => decStmt s + decSL ss

def decDecl : Decl → Nat
  | .classD _ k => decClassK k
  | .varD _ ds => decVDs ds
  | .fnD _ f => decFn f

def decVDs : List VarDeclarator → Nat
  | [] => 0
  | .mk _ i :: ds => decOptE i + decVDs ds
end

def decItem : ModuleItem → Nat
  | .stmt s => decStmt s
  | .exportDefaultClass _ k => decClassK k
  | .exportNamed _ => 0

def decItems : List ModuleItem → Nat
  | [] => 0
  | it :: its => decItem it + decItems its

def decModule (m : Module) : Nat := decItems m.body

/-- Modelled from the spec: `contains_decorator` (decorators/mod.rs, not under
src/) answers whether any decorator occurs anywhere within a subtree. -/
def containsDecStmt (s : Stmt) : Bool := decide (0 < decStmt s)

/-- Modelled from the spec: whole-list decorator presence check for `Vec<Stmt>`. -/
def containsDecSL (ss : List Stmt) : Bool := decide (0 < decSL ss)

/-- Modelled from the spec: decorator presence check for one module item. -/
def containsDecItem (it : ModuleItem) : Bool := decide (0 < decItem it)

/-- Modelled from the spec: whole-list decorator presence check for `Vec<ModuleItem>`. -/
def containsDecItems (its : List ModuleItem) : Bool := decide (0 < decItems its)

/-! ## Decorators in unhandled positions

`Legacy::handle` strips decorators from class-level decorator lists, from
non-private methods (function-level and parameter decorators) and from
non-private class properties; every other class member falls through the
`_ => Some(m)` arm of the `move_flat_map` (mod.rs line 712) untouched.  The
`bad` counters below count exactly the decorators sitting in positions the
pass never strips: constructor parameters, private methods and properties,
and functions that are not class methods.  Decorators in handled positions
contribute only the count of decorators nested inside their expressions. -/

mutual
def badE : Expr → Nat
  | .identE _ => 0
  | .lit _ => 0
  | .thisE => 0
  | .assign _ r => badE r
  | .bin _ l r => badE l + badE r
  | .cond t c a => badE t + badE c + badE a
  | .call c args => badCallee c + badEL args
  | .member o _ => badE o
  | .seq es => badEL es
  | .array es => badEL es
  | .object ps => badOPs ps
  | .fnE _ f => badFnPlain f
  | .classE _ k => badClassK k
  | .unary _ e => badE e
  | .spread e => badE e

def badEL : List Expr → Nat
  | [] => 0
  | e :: es => badE e + badEL es

def badCallee : Callee → Nat
  | .cexpr e => badE e
  | .csuper => 0

def badOPs : List ObjProp → Nat
  | [] => 0
  | .kv _ v :: ps => badE v + badOPs ps

def badDecsHard : List Expr → Nat
  | [] => 0
  | e :: es => 1 + badE e + badDecsHard es

def badFnPlain : Fn → Nat
  | .mk params decorators body =>
    badParamsHard params + badDecsHard decorators + badOBody body

def badFnMethod : Fn → Nat
  | .mk params decorators body =>
    badParamsSoft params + badEL decorators + badOBody body

def badParamsHard : List Param → Nat
  | [] => 0
  | .mk ds _ :: ps => badDecsHard ds + badParamsHard ps

def badParamsSoft : List Param → Nat
  | [] => 0
  | .mk ds _ :: ps => badEL ds + badParamsSoft ps

def badOBody : Option (List Stmt) → Nat
  | none => 0
  | some ss => badSL ss

def badOptE : Option Expr → Nat
  | none => 0
  | some e => badE e

def badPropName : PropName → Nat
  | .computed e => badE e
  | _ => 0

def badMember : ClassMember → Nat
  | .ctorM params body => badParamsHard params + badOBody body
  | .method key _ f => badPropName key + badFnMethod f
  | .propM key _ ds v => badPropName key + badEL ds + badOptE v
  | .privateMethod _ _ f => badFnPlain f
  | .privateProp _ _ ds v => badDecsHard ds + badOptE v
  | .emptyM => 0

def badMembers : List ClassMember → Nat
  | [] => 0
  | m :: ms => badMember m + badMembers ms

def badClassK : ClassK → Nat
  | .mk decorators body superClass =>
    badEL decorators + badMembers body + badOptE superClass

def badStmt : Stmt → Nat
  | .exprS e => badE e
  | .declS d => badDecl d
  | .ret e => badOptE e
  | .block ss => badSL ss
  | .emptyS => 0

def badSL : List Stmt → Nat
  | [] => 0
  | s :: ss => badStmt s + badSL ss

def badDecl : Decl → Nat
  | .classD _ k => badClassK k
  | .varD _ ds => badVDs ds
  | .fnD _ f => badFnPlain f

def badVDs : List VarDeclarator → Nat
  | [] => 0
  | .mk _ i :: ds => badOptE i + badVDs ds
end

def badItem : ModuleItem → Nat
  | .stmt s => badStmt s
  | .exportDefaultClass _ k => badClassK k
  | .exportNamed _ => 0

def badItems : List ModuleItem → Nat
  | [] => 0
  | it :: its => badItem it + badItems its

def badModule (m : Module) : Nat := badItems m.body

/-! ## Pending decorators of a children-folded class

When `Legacy::handle` receives a class, the surrounding fold has already
folded the class children, so every expression stored inside it is
decorator-free; only the strippable decorator lists themselves may be
nonempty.  `pendClassK` measures what remains: it counts the full content of
every expression in the class and the hard (unstrippable) decorator lists,
but not the strippable lists themselves. -/

def pendParams : List Param → Nat
  | [] => 0
  | p :: ps => decEL p.decorators + pendParams ps

def pendFn : Fn → Nat
  | .mk params decorators body =>
    pendParams params + decEL decorators + decOBody body

def pendMember : ClassMember → Nat
  | .ctorM params body => decParams params + decOBody body
  | .method key _ f => decPropName key + pendFn f
  | .propM key _ ds v => decPropName key + decEL ds + decOptE v
  | .privateMethod _ _ f => decFn f
  | .privateProp _ _ ds v => decDecs ds + decOptE v
  | .emptyM => 0

def pendMembers : List ClassMember → Nat
  | [] => 0
  | m :: ms => pendMember m + pendMembers ms

def pendClassK : ClassK → Nat
  | .mk decorators body superClass =>
    decEL decorators + pendMembers body + decOptE superClass

/-! ## Identifier replacement and occurrence counting

Modelled from the spec: `swc_ecma_utils::replace_ident` is not under src/;
it replaces every occurrence of one identifier (symbol plus context) with
another throughout a subtree.  `cntE` counts the occurrences of a given
identifier in the same positions `replE` rewrites. -/

mutual
def replE (o : Ident) (n : Ident) : Expr → Expr
  | .identE i => .identE (if i = o then n else i)
  | .lit l => .lit l
  | .thisE => .thisE
  | .assign lhs r => .assign (if lhs = o then n else lhs) (replE o n r)
  | .bin op l r => .bin op (replE o n l) (replE o n r)
  | .cond t c a => .cond (replE o n t) (replE o n c) (replE o n a)
  | .call c args => .call (replCallee o n c) (replEL o n args)
  | .member ob p => .member (replE o n ob) p
  | .seq es => .seq (replEL o n es)
  | .array es => .array (replEL o n es)
  | .object ps => .object (replOPs o n ps)
  | .fnE nm f => .fnE (replOI o n nm) (replFn o n f)
  | .classE ident k => .classE (replOI o n ident) (replClassK o n k)
  | .unary op e => .unary op (replE o n e)
  | .spread e => .spread (replE o n e)

def replOI (o : Ident) (n : Ident) : Option Ident → Option Ident
  | none => none
  | some i => some (if i = o then n else i)

def replCallee (o : Ident) (n : Ident) : Callee → Callee
  | .cexpr e => .cexpr (replE o n e)
  | .csuper => .csuper

def replEL (o : Ident) (n : Ident) : List Expr → List Expr
  | [] => []
  | e :: es => replE o n e :: replEL o n es

def replOPs (o : Ident) (n : Ident) : List ObjProp → List ObjProp
  | [] => []
  | .kv k v :: ps => .kv k (replE o n v) :: replOPs o n ps

def replFn (o : Ident) (n : Ident) : Fn → Fn
  | .mk params decorators body =>
    .mk (replParams o n params) (replEL o n decorators) (replOBody o n body)

def replParams (o : Ident) (n : Ident) : List Param → List Param
  | [] => []
  | .mk ds p :: ps => .mk (replEL o n ds) (replPat o n p) :: replParams o n ps

def replPat (o : Ident) (n : Ident) : Pat → Pat
  | .id i => .id (if i = o then n else i)
  | .restId i => .restId (if i = o then n else i)

def replOBody (o : Ident) (n : Ident) : Option (List Stmt) → Option (List Stmt)
  | none => none
  | some ss => some (replSL o n ss)

def replOptE (o : Ident) (n : Ident) : Option Expr → Option Expr
  | none => none
  | some e => some (replE o n e)

def replPropName (o : Ident) (n : Ident) : PropName → PropName
  | .computed e => .computed (replE o n e)
  | k => k

def replMember (o : Ident) (n : Ident) : ClassMember → ClassMember
  | .ctorM params body => .ctorM (replParams o n params) (replOBody o n body)
  | .method key st f => .method (replPropName o n key) st (replFn o n f)
  | .propM key st ds v =>
    .propM (replPropName o n key) st (replEL o n ds) (replOptE o n v)
  | .privateMethod nm st f => .privateMethod nm st (replFn o n f)
  | .privateProp nm st ds v => .privateProp nm st (replEL o n ds) (replOptE o n v)
  | .emptyM => .emptyM

def replMembers (o : Ident) (n : Ident) : List ClassMember → List ClassMember
  | [] => []
  | m :: ms => replMember o n m :: replMembers o n ms

def replClassK (o : Ident) (n : Ident) : ClassK → ClassK
  | .mk decorators body superClass =>
    .mk (replEL o n decorators) (replMembers o n body) (replOptE o n superClass)

def replStmt (o : Ident) (n : Ident) : Stmt → Stmt
  | .exprS e => .exprS (replE o n e)
  | .declS d => .declS (replDecl o n d)
  | .ret e => .ret (replOptE o n e)
  | .block ss => .block (replSL o n ss)
  | .emptyS => .emptyS

def replSL (o : Ident) (n : Ident) : List Stmt → List Stmt
  | [] => []
  | s :: ss => replStmt o n s :: replSL o n ss

def replDecl (o : Ident) (n : Ident) : Decl → Decl
  | .classD ident k => .classD (if ident = o then n else ident) (replClassK o n k)
  | .varD kind ds => .varD kind (replVDs o n ds)
  | .fnD ident f => .fnD (if ident = o then n else ident) (replFn o n f)

def replVDs (o : Ident) (n : Ident) : List VarDeclarator → List VarDeclarator
  | [] => []
  | .mk nm i :: ds => .mk (if nm = o then n else nm) (replOptE o n i) :: replVDs o n ds
end

mutual
def cntE (t : Ident) : Expr → Nat
  | .identE i => if i = t then 1 else 0
  | .lit _ => 0
  | .thisE => 0
  | .assign lhs r => (if lhs = t then 1 else 0) + cntE t r
  | .bin _ l r => cntE t l + cntE t r
  | .cond a b c => cntE t a + cntE t b + cntE t c
  | .call c args => cntCallee t c + cntEL t args
  | .member o _ => cntE t o
  | .seq es => cntEL t es
  | .array es => cntEL t es
  | .object ps => cntOPs t ps
  | .fnE nm f => cntOI t nm + cntFn t f
  | .classE ident k => cntOI t ident + cntClassK t k
  | .unary _ e => cntE t e
  | .spread e => cntE t e

def cntOI (t : Ident) : Option Ident → Nat
  | none => 0
  | some i => if i = t then 1 else 0

def cntCallee (t : Ident) : Callee → Nat
  | .cexpr e => cntE t e
  | .csuper => 0

def cntEL (t : Ident) : List Expr → Nat
  | [] => 0
  | e :: es => cntE t e + cntEL t es

def cntOPs (t : Ident) : List ObjProp → Nat
  | [] => 0
  | .kv _ v :: ps => cntE t v + cntOPs t ps

def cntFn (t : Ident) : Fn → Nat
  | .mk params decorators body =>
    cntParams t params + cntEL t decorators + cntOBody t body

def cntParams (t : Ident) : List Param → Nat
  | [] => 0
  | .mk ds p :: ps => cntEL t ds + cntPat t p + cntParams t ps

def cntPat (t : Ident) : Pat → Nat
  | .id i => if i = t then 1 else 0
  | .restId i => if i = t then 1 else 0

def cntOBody (t : Ident) : Option (List Stmt) → Nat
  | none => 0
  | some ss => cntSL t ss

def cntOptE (t : Ident) : Option Expr → Nat
  | none => 0
  | some e => cntE t e

def cntPropName (t : Ident) : PropName → Nat
  | .computed e => cntE t e
  | _ => 0

def cntMember (t : Ident) : ClassMember → Nat
  | .ctorM params body => cntParams t params + cntOBody t body
  | .method key _ f => cntPropName t key + cntFn t f
  | .propM key _ ds v => cntPropName t key + cntEL t ds + cntOptE t v
  | .privateMethod _ _ f => cntFn t f
  | .privateProp _ _ ds v => cntEL t ds + cntOptE t v
  | .emptyM => 0

def cntMembers (t : Ident) : List ClassMember → Nat
  | [] => 0
  | m :: ms => cntMember t m + cntMembers t ms

def cntClassK (t : Ident) : ClassK → Nat
  | .mk decorators body superClass =>
    cntEL t decorators + cntMembers t body + cntOptE t superClass

def cntStmt (t : Ident) : Stmt → Nat
  | .exprS e => cntE t e
  | .declS d => cntDecl t d
  | .ret e => cntOptE t e
  | .block ss => cntSL t ss
  | .emptyS => 0

def cntSL (t : Ident) : List Stmt → Nat
  | [] => 0
  | s :: ss => cntStmt t s + cntSL t ss

def cntDecl (t : Ident) : Decl → Nat
  | .classD ident k => (if ident = t then 1 else 0) + cntClassK t k
  | .varD _ ds => cntVDs t ds
  | .fnD ident f => (if ident = t then 1 else 0) + cntFn t f

def cntVDs (t : Ident) : List VarDeclarator → Nat
  | [] => 0
  | .mk nm i :: ds => (if nm = t then 1 else 0) + cntOptE t i + cntVDs t ds
end

/-! ## Pass state and shared utilities

The `Legacy` struct (mod.rs lines 26-32) carries `uninitialized_vars`,
`initialized_vars` and `exports`; `enums`/`metadata` are omitted (metadata
mode disabled, see the header).  The counter `ctr` models the hygiene marks
handed out by `private_ident!`: each call produces an ident with a context
never used before. -/

structure St where
  uninitVars : List Ident
  initVars : List VarDeclarator
  exports : List ExportSpecifier
  ctr : Nat

/-- Initial pass state (the `new` constructor, mod.rs lines 34-42). -/
def st0 : St := ⟨[], [], [], 0⟩

/-- Every push to `uninitialized_vars` in the Rust pass uses `init: None`
(mod.rs lines 274-279, 318-323, 371-376, 469-475, 518-524), so the state
tracks only the names; the module/script prepend re-forms the declarators. -/
def uninitToVDs : List Ident → List VarDeclarator
  | [] => []
  | i :: l => .mk i none :: uninitToVDs l

/-- Fresh private identifier (models `private_ident!`). -/
def freshIdent (s : St) (sym : String) : St × Ident :=
  ({ s with ctr := s.ctr + 1 }, ⟨sym, s.ctr + 1⟩)

/-- Modelled from the spec: `swc_ecma_utils::alias_if_required` is not under
src/.  Per the spec (section 4.2) an expression is simple only if it is a
bare identifier reference; every other expression is complex and receives a
fresh private temporary named from the given hint.  Returns the ident to
reference the expression by, and whether aliasing was required. -/
def aliasIfRequired (s : St) (e : Expr) (hint : String) : St × Ident × Bool :=
  match e with
  | .identE i => (s, i, false)
  | _ =>
    let p := freshIdent s hint
    (p.1, p.2, true)

/-- Ident of the `applyDecoratedDescriptor` runtime helper (the `helper!`
macro emits a reference to the injected helper function). -/
def applyDDHelper : Ident := ⟨"_applyDecoratedDescriptor", 0⟩

/-- Ident of the `initializerDefineProperty` runtime helper. -/
def idpHelper : Ident := ⟨"_initializerDefineProperty", 0⟩

/-- The `Object.getOwnPropertyDescriptor` callee
(`member_expr!(DUMMY_SP, Object.getOwnPropertyDescriptor)`). -/
def getOwnPropDesc : Expr := .member (.identE ⟨"Object", 0⟩) "getOwnPropertyDescriptor"

/-- The `undefined(DUMMY_SP)` utility: `void 0`. -/
def undefinedE : Expr := .unary "void" (.lit (.num 0))

/-- Modelled from the spec: `swc_ecma_utils::prop_name_to_expr_value` is not
under src/.  An ident key becomes a string literal of its symbol; literal
keys become literals; a computed key is its expression. -/
def propNameToExprValue : PropName → Expr
  | .idKey s => .lit (.str s)
  | .strKey s => .lit (.str s)
  | .numKey n => .lit (.num n)
  | .computed e => e

/-- Modelled from the spec: `swc_ecma_utils::prop_name_to_expr` is not under
src/.  An ident key becomes an identifier reference; literal keys become
literals; a computed key is its expression. -/
def propNameToExpr : PropName → Expr
  | .idKey s => .identE ⟨s, 0⟩
  | .strKey s => .lit (.str s)
  | .numKey n => .lit (.num n)
  | .computed e => e

/-- Modelled from the spec: `swc_ecma_utils::default_constructor` is not
under src/.  Per the spec (section 4.4 step 4) the synthesized default
constructor forwards all arguments to `super(...)` when a superclass is
declared and is empty otherwise. -/
def defaultCtor (hasSuper : Bool) : ClassMember :=
  if hasSuper then
    .ctorM [.mk [] (.restId ⟨"args", 0⟩)]
      (some [.exprS (.call .csuper [.spread (.identE ⟨"args", 0⟩)])])
  else
    .ctorM [] (some [])

/-! ## Per-class lowering: `Legacy::handle` (mod.rs lines 261-820)

The body of `handle` is one `move_flat_map` over the class members plus the
constructor-injection block and the final expression assembly.  It is split
here into named pieces so that individual claims can be settled on the piece
the claim describes; each piece is a direct transcription of a line range of
mod.rs. -/

/-- Accumulators threaded through the member loop of `handle`:
`dec_init_exprs` (line 284), `extra_exprs` (line 287) and
`constructor_stmts` (line 289), plus the pass state. -/
structure HAcc where
  s : St
  decInits : List Expr
  extras : List Expr
  ctorStmts : List Stmt

/-- Applies `replace_ident(expr, cls_name, cls_ident)` when the class has a
declared name (`if let Some(cls_name) = cls_name` at mod.rs lines 337, 361,
483), and leaves the expression alone otherwise. -/
def replaceClsRef (clsName : Option Ident) (clsIdent : Ident) (e : Expr) : Expr :=
  match clsName with
  | some n => replE n clsIdent e
  | none => e

/-- The decorator-resolution loop shared by the method arm (mod.rs lines
313-354) and the property arm (mod.rs lines 479-502): for each decorator,
`alias_if_required`; when aliased, push an uninitialized temporary, rewrite
references to the class name into the class binding, and record the
initializing assignment `temp = expr`.  Returns the per-decorator reference
expressions (in source order) and the recorded assignments (in source
order). -/
def resolveDecs (clsName : Option Ident) (clsIdent : Ident) :
    St → List Expr → St × List Expr × List Expr
  | s, [] => (s, [], [])
  | s, d :: ds =>
    let a := aliasIfRequired s d "_dec"
    let i := a.2.1
    let s1 := a.1
    let step : St × List Expr :=
      if a.2.2 then
        ({ s1 with uninitVars := s1.uninitVars ++ [i] },
         [.assign i (replaceClsRef clsName clsIdent d)])
      else (s1, [])
    let rest := resolveDecs clsName clsIdent step.1 ds
    (rest.1, .identE i :: rest.2.1, step.2 ++ rest.2.2)

/-- Method-key resolution (mod.rs lines 356-382): a computed key is
`alias_if_required`-cached (class-name references rewritten to the class
binding, assignment recorded into `dec_init_exprs`, temporary hoisted);
any other key becomes `prop_name_to_expr_value`. -/
def methodKeyName (clsName : Option Ident) (clsIdent : Ident) (s : St) (key : PropName) :
    St × Expr × List Expr :=
  match key with
  | .computed e =>
    let a := aliasIfRequired s e "key"
    let nm := a.2.1
    if a.2.2 then
      ({ a.1 with uninitVars := a.1.uninitVars ++ [nm] },
       .identE nm,
       [.assign nm (replaceClsRef clsName clsIdent e)])
    else (a.1, .identE nm, [])
  | k => (s, propNameToExprValue k, [])

/-- Parameter-decorator lowering of the method arm (mod.rs lines 384-412):
each parameter decorator becomes an eager call
`dec(target, propertyKey, parameterIndex)` (callee is the decorator
expression itself, not an alias), collected in parameter order; the
parameters are rebuilt with empty decorator lists. -/
def lowerMethodParams (target : Expr) (nameE : Expr) :
    Nat → List Param → List Expr × List Param
  | _, [] => ([], [])
  | idx, .mk decs pat :: ps =>
    let calls := decs.map fun d =>
      Expr.call (.cexpr d) [target, nameE, .lit (.num (idx : Int))]
    let rest := lowerMethodParams target nameE (idx + 1) ps
    (calls ++ rest.1, .mk [] pat :: rest.2)

/-- The guard of the method arm (mod.rs lines 298-300): the arm fires when
the function has decorators or any parameter has decorators. -/
def methodNeedsLowering (f : Fn) : Bool :=
  match f with
  | .mk params decorators _ =>
    !(decorators.isEmpty && params.all fun p => p.decorators.isEmpty)

/-- Property-key expression of the property arm (mod.rs lines 504-515): an
ident key becomes a string literal, anything else goes through
`prop_name_to_expr`. -/
def propKeyStrName : PropName → Expr
  | .idKey sym => .lit (.str sym)
  | k => propNameToExpr k

/-- The property-descriptor object literal of the property arm (mod.rs lines
526-591): `{configurable: true, enumerable: true, writable: true,
initializer: thunk-or-undefined}`; the thunk returns the captured static
value temp for a static property and the original value expression for an
instance property. -/
def descriptorLit (isStatic : Bool) (initTmp : Ident) (value : Option Expr) : Expr :=
  .object
    [ .kv "configurable" (.lit (.boolL true)),
      .kv "enumerable" (.lit (.boolL true)),
      .kv "writable" (.lit (.boolL true)),
      .kv "initializer"
        (match value with
         | some v =>
           .fnE none (.mk [] []
             (some [.ret (some (if isStatic then .identE initTmp else v))]))
         | none => undefinedE) ]

/-- The constructor-injection statement recorded for a decorated instance
property (mod.rs lines 678-696):
`initializerDefineProperty(this, key, descriptorTemp, this)`. -/
def idpStmt (nameE : Expr) (descriptor : Ident) : Stmt :=
  .exprS (.call (.cexpr (.identE idpHelper))
    [.thisE, nameE, .identE descriptor, .thisE])

/-- One step of the member `move_flat_map` of `handle` (mod.rs lines
297-713): the method arm, the decorated-property arm, and the untouched
fall-through `_ => Some(m)`. -/
def lowerMember (clsIdent : Ident) (clsName : Option Ident) (proto : Expr)
    (acc : HAcc) (m : ClassMember) : HAcc × Option ClassMember :=
  match m with
  | .method key isStatic f =>
    if methodNeedsLowering f then
      match f with
      | .mk params fdecs body =>
        let target : Expr := if isStatic then .identE clsIdent else proto
        let r := resolveDecs clsName clsIdent acc.s fdecs
        let k := methodKeyName clsName clsIdent r.1 key
        let nameE := k.2.1
        let p := lowerMethodParams target nameE 0 params
        let applyCall : Expr :=
          .call (.cexpr (.identE applyDDHelper))
            [ target, nameE, .array r.2.1,
              .call (.cexpr getOwnPropDesc) [target, nameE], target ]
        ( { acc with
              s := k.1,
              decInits := acc.decInits ++ k.2.2,
              extras := acc.extras ++ p.1 ++ r.2.2 ++ [applyCall] },
          some (.method key isStatic (.mk p.2 [] body)) )
    else (acc, some m)
  | .propM key isStatic decs value =>
    if decs.isEmpty then (acc, some m)
    else
      let target : Expr := if isStatic then .identE clsIdent else proto
      let fd := freshIdent acc.s "_descriptor"
      let descriptor := fd.2
      let s1 :=
        if isStatic then fd.1
        else { fd.1 with uninitVars := fd.1.uninitVars ++ [descriptor] }
      let r := resolveDecs clsName clsIdent s1 decs
      let nameE : Expr := propKeyStrName key
      let fi := freshIdent r.1 "_init"
      let initTmp := fi.2
      let s2 :=
        if isStatic then
          { fi.1 with uninitVars := fi.1.uninitVars ++ [initTmp] }
        else fi.1
      let descLit := descriptorLit isStatic initTmp value
      let pd : Expr :=
        if isStatic then
          .seq
            [ .assign initTmp (.call (.cexpr getOwnPropDesc) [.identE clsIdent, nameE]),
              .assign initTmp
                (.cond (.identE initTmp) (.member (.identE initTmp) "value") undefinedE),
              descLit ]
        else descLit
      let callE : Expr :=
        .call (.cexpr (.identE applyDDHelper))
          (if isStatic then [target, nameE, .array r.2.1, pd, .identE clsIdent]
           else [target, nameE, .array r.2.1, pd])
      let acc2 : HAcc :=
        { acc with
            s := s2,
            decInits := acc.decInits ++ r.2.2,
            extras := acc.extras ++ [if isStatic then callE else .assign descriptor callE],
            ctorStmts := acc.ctorStmts ++ (if isStatic then [] else [idpStmt nameE descriptor]) }
      if isStatic then (acc2, some (.propM key isStatic [] value))
      else (acc2, none)
  | m => (acc, some m)

/-- The member loop (`move_flat_map`, mod.rs line 297): members processed in
source order, removed members dropped, order preserved. -/
def lowerMembers (clsIdent : Ident) (clsName : Option Ident) (proto : Expr) :
    HAcc → List ClassMember → HAcc × List ClassMember
  | acc, [] => (acc, [])
  | acc, m :: ms =>
    let st := lowerMember clsIdent clsName proto acc m
    let rest := lowerMembers clsIdent clsName proto st.1 ms
    ( rest.1,
      match st.2 with
      | some m2 => m2 :: rest.2
      | none => rest.2 )

/-- Recognizer for a constructor member (mod.rs lines 719-723, 738-741). -/
def isCtorMember : ClassMember → Bool
  | .ctorM _ _ => true
  | _ => false

/-- Recognizer for a top-level `super(...)` call expression statement
(mod.rs lines 758-768). -/
def isSuperCallStmt : Stmt → Bool
  | .exprS (.call .csuper _) => true
  | _ => false

/-- The insertion index for constructor-injection statements (mod.rs lines
752-770): the index immediately following the first top-level `super(...)`
call expression statement, or 0 when there is none. -/
def superInsertPos (stmts : List Stmt) : Nat :=
  match stmts.findIdx? isSuperCallStmt with
  | some p => p + 1
  | none => 0

/-- The splice itself (mod.rs lines 772-775). -/
def spliceCtorStmts (inj : List Stmt) (stmts : List Stmt) : List Stmt :=
  let p := superInsertPos stmts
  stmts.take p ++ inj ++ stmts.drop p

/-- Injection into the first constructor of the body (mod.rs lines 734-775):
the first constructor member gets a body if it has none, and the injection
statements are spliced at `superInsertPos`. -/
def injectIntoFirstCtor (inj : List Stmt) : List ClassMember → List ClassMember
  | [] => []
  | .ctorM params body :: ms =>
    .ctorM params (some (spliceCtorStmts inj (body.getD []))) :: ms
  | m :: ms => m :: injectIntoFirstCtor inj ms

/-- The constructor-injection block of `handle` (mod.rs lines 715-776): when
injection statements exist, a default constructor is appended if the body
has none, then the statements are spliced into the first constructor. -/
def injectCtorStmts (inj : List Stmt) (hasSuper : Bool) (body : List ClassMember) :
    List ClassMember :=
  let body1 := if body.any isCtorMember then body else body ++ [defaultCtor hasSuper]
  injectIntoFirstCtor inj body1

/-- One iteration of `Legacy::apply` (mod.rs lines 829-861): resolve the
decorator via `alias_if_required` (recording `temp = expr` into
`initialized_vars` when aliasing is required) and wrap the current
expression as `classBinding = decRef(current) || classBinding`. -/
def applyStep (clsIdent : Ident) (p : St × Expr) (dec : Expr) : St × Expr :=
  let a := aliasIfRequired p.1 dec "_dec"
  let i := a.2.1
  let s1 :=
    if a.2.2 then { a.1 with initVars := a.1.initVars ++ [.mk i (some dec)] }
    else a.1
  (s1, .assign clsIdent (.bin "||" (.call (.cexpr (.identE i)) [p.2]) (.identE clsIdent)))

/-- `Legacy::apply` (mod.rs lines 823-864): iterate the class-level
decorators in reverse source order (`decorators.into_iter().rev()`),
wrapping via `applyStep`. -/
def applyDecs (clsIdent : Ident) (s : St) (expr : Expr) (decorators : List Expr) :
    St × Expr :=
  decorators.reverse.foldl (applyStep clsIdent) (s, expr)

/-- `Legacy::handle` (mod.rs lines 261-820), metadata mode disabled: allocate
the class binding temp, run the member loop, inject constructor statements,
build `classBinding = classExpr || classBinding`, assemble the sequence
expression, and apply the class-level decorators. -/
def handle (s : St) (ident : Option Ident) (k : ClassK) : St × Expr :=
  match k with
  | .mk kdecs body superClass =>
    let fc := freshIdent s "_class"
    let clsIdent := fc.2
    let clsName := ident
    let s1 := { fc.1 with uninitVars := fc.1.uninitVars ++ [clsIdent] }
    let proto : Expr := .member (.identE clsIdent) "prototype"
    let lm := lowerMembers clsIdent clsName proto ⟨s1, [], [], []⟩ body
    let acc := lm.1
    let body2 :=
      if acc.ctorStmts.isEmpty then lm.2
      else injectCtorStmts acc.ctorStmts superClass.isSome lm.2
    let clsAssign : Expr := .assign clsIdent (.classE ident (.mk [] body2 superClass))
    let varInit : Expr := .bin "||" clsAssign (.identE clsIdent)
    let extra := acc.decInits ++ acc.extras
    let core : Expr :=
      if extra.isEmpty then varInit
      else .seq (varInit :: (extra ++ [.identE clsIdent]))
    applyDecs clsIdent acc.s core kdecs

/-! ## The fold (`impl Fold for Legacy`)

swc's `Fold` is a bottom-up rewrite: the custom methods first fold the
children generically and then intercept class expressions (`fold_expr`,
mod.rs lines 114-124), class declarations (`fold_decl`, lines 89-112),
default-export class declarations (`fold_module_item`, lines 161-195) and
statement lists (`fold_stmts`/`fold_module_items` via `fold_stmt_like`,
lines 197-257).  Children are folded in swc field order.  Since the
children-fold of a non-class node returns the same constructor, each
constructor case below folds its children and applies the hook directly. -/

mutual
def foldExpr (s : St) : Expr → St × Expr
  | .identE i => (s, .identE i)
  | .lit l => (s, .lit l)
  | .thisE => (s, .thisE)
  | .assign lhs r =>
    let p := foldExpr s r
    (p.1, .assign lhs p.2)
  | .bin op l r =>
    let pl := foldExpr s l
    let pr := foldExpr pl.1 r
    (pr.1, .bin op pl.2 pr.2)
  | .cond t c a =>
    let pt := foldExpr s t
    let pc := foldExpr pt.1 c
    let pa := foldExpr pc.1 a
    (pa.1, .cond pt.2 pc.2 pa.2)
  | .call c args =>
    let pc := foldCallee s c
    let pa := foldExprL pc.1 args
    (pa.1, .call pc.2 pa.2)
  | .member o prop =>
    let p := foldExpr s o
    (p.1, .member p.2 prop)
  | .seq es =>
    let p := foldExprL s es
    (p.1, .seq p.2)
  | .array es =>
    let p := foldExprL s es
    (p.1, .array p.2)
  | .object ps =>
    let p := foldOPs s ps
    (p.1, .object p.2)
  | .fnE nm f =>
    let p := foldFn s f
    (p.1, .fnE nm p.2)
  | .classE ident k =>
    let p := foldClassK s k
    handle p.1 ident p.2
  | .unary op e =>
    let p := foldExpr s e
    (p.1, .unary op p.2)
  | .spread e =>
    let p := foldExpr s e
    (p.1, .spread p.2)

def foldExprL (s : St) : List Expr → St × List Expr
  | [] => (s, [])
  | e :: es =>
    let p := foldExpr s e
    let r := foldExprL p.1 es
    (r.1, p.2 :: r.2)

def foldOptE (s : St) : Option Expr → St × Option Expr
  | none => (s, none)
  | some e =>
    let p := foldExpr s e
    (p.1, some p.2)

def foldCallee (s : St) : Callee → St × Callee
  | .cexpr e =>
    let p := foldExpr s e
    (p.1, .cexpr p.2)
  | .csuper => (s, .csuper)

def foldOPs (s : St) : List ObjProp → St × List ObjProp
  | [] => (s, [])
  | .kv k v :: ps =>
    let p := foldExpr s v
    let r := foldOPs p.1 ps
    (r.1, .kv k p.2 :: r.2)

def foldFn (s : St) : Fn → St × Fn
  | .mk params decorators body =>
    let pp := foldParams s params
    let pd := foldExprL pp.1 decorators
    let pb := foldOBody pd.1 body
    (pb.1, .mk pp.2 pd.2 pb.2)

def foldParams (s : St) : List Param → St × List Param
  | [] => (s, [])
  | .mk ds pat :: ps =>
    let pd := foldExprL s ds
    let r := foldParams pd.1 ps
    (r.1, .mk pd.2 pat :: r.2)

def foldOBody (s : St) : Option (List Stmt) → St × Option (List Stmt)
  | none => (s, none)
  | some ss =>
    if containsDecSL ss then
      let r := foldStmtsCore s ss
      (r.1, some r.2)
    else (s, some ss)

def foldPropName (s : St) : PropName → St × PropName
  | .computed e =>
    let p := foldExpr s e
    (p.1, .computed p.2)
  | k => (s, k)

def foldMember (s : St) : ClassMember → St × ClassMember
  | .ctorM params body =>
    let pp := foldParams s params
    let pb := foldOBody pp.1 body
    (pb.1, .ctorM pp.2 pb.2)
  | .method key st f =>
    let pk := foldPropName s key
    let pf := foldFn pk.1 f
    (pf.1, .method pk.2 st pf.2)
  | .propM key st ds v =>
    let pk := foldPropName s key
    let pv := foldOptE pk.1 v
    let pd := foldExprL pv.1 ds
    (pd.1, .propM pk.2 st pd.2 pv.2)
  | .privateMethod nm st f =>
    let pf := foldFn s f
    (pf.1, .privateMethod nm st pf.2)
  | .privateProp nm st ds v =>
    let pv := foldOptE s v
    let pd := foldExprL pv.1 ds
    (pd.1, .privateProp nm st pd.2 pv.2)
  | .emptyM => (s, .emptyM)

def foldMembers (s : St) : List ClassMember → St × List ClassMember
  | [] => (s, [])
  | m :: ms =>
    let p := foldMember s m
    let r := foldMembers p.1 ms
    (r.1, p.2 :: r.2)

def foldClassK (s : St) : ClassK → St × ClassK
  | .mk decorators body superClass =>
    let pd := foldExprL s decorators
    let pb := foldMembers pd.1 body
    let ps := foldOptE pb.1 superClass
    (ps.1, .mk pd.2 pb.2 ps.2)

def foldStmt (s : St) : Stmt → St × Stmt
  | .exprS e =>
    let p := foldExpr s e
    (p.1, .exprS p.2)
  | .declS d =>
    let p := foldDecl s d
    (p.1, .declS p.2)
  | .ret e =>
    let p := foldOptE s e
    (p.1, .ret p.2)
  | .block ss =>
    if containsDecSL ss then
      let r := foldStmtsCore s ss
      (r.1, .block r.2)
    else (s, .block ss)
  | .emptyS => (s, .emptyS)

def foldDecl (s : St) : Decl → St × Decl
  | .classD ident k =>
    let p := foldClassK s k
    let h := handle p.1 (some ident) p.2
    (h.1, .varD .letK [.mk ident (some h.2)])
  | .varD kind ds =>
    let p := foldVDs s ds
    (p.1, .varD kind p.2)
  | .fnD ident f =>
    let p := foldFn s f
    (p.1, .fnD ident p.2)

def foldVDs (s : St) : List VarDeclarator → St × List VarDeclarator
  | [] => (s, [])
  | .mk nm i :: ds =>
    let p := foldOptE s i
    let r := foldVDs p.1 ds
    (r.1, .mk nm p.2 :: r.2)

def foldStmtsCore (s : St) : List Stmt → St × List Stmt
  | [] => (s, [])
  | st :: rest =>
    if containsDecStmt st then
      let p := foldStmt s st
      if p.1.initVars.isEmpty then
        let r := foldStmtsCore p.1 rest
        (r.1, p.2 :: r.2)
      else
        let vd : Stmt := .declS (.varD .varK p.1.initVars)
        let r := foldStmtsCore { p.1 with initVars := [] } rest
        (r.1, vd :: p.2 :: r.2)
    else
      let r := foldStmtsCore s rest
      (r.1, st :: r.2)
end

/-- `Legacy::fold_stmt_like` at `Vec<Stmt>` (mod.rs lines 225-257, reached
from `fold_stmts`): fast path when no decorator occurs anywhere in the list,
otherwise the per-statement loop `foldStmtsCore`. -/
def foldStmts (s : St) (stmts : List Stmt) : St × List Stmt :=
  if containsDecSL stmts then foldStmtsCore s stmts else (s, stmts)

/-- `Legacy::fold_module_item` (mod.rs lines 161-195): fold children, then
rewrite a default-export class declaration into a variable declaration plus
a pending `default` export specifier. -/
def foldModuleItem (s : St) : ModuleItem → St × ModuleItem
  | .stmt st =>
    let p := foldStmt s st
    (p.1, .stmt p.2)
  | .exportDefaultClass ident k =>
    let p := foldClassK s k
    let ei :=
      match ident with
      | some i => (p.1, i)
      | none => freshIdent p.1 "_class"
    let h := handle ei.1 ident p.2
    let s2 := { h.1 with exports := h.1.exports ++ [⟨ei.2, some "default"⟩] }
    (s2, .stmt (.declS (.varD .letK [.mk ei.2 (some h.2)])))
  | .exportNamed sp => (s, .exportNamed sp)

/-- The per-item loop of `fold_stmt_like` at `Vec<ModuleItem>`
(`T::from_stmt` wraps the spliced declaration as a plain statement item). -/
def foldItemsCore (s : St) : List ModuleItem → St × List ModuleItem
  | [] => (s, [])
  | it :: rest =>
    if containsDecItem it then
      let p := foldModuleItem s it
      if p.1.initVars.isEmpty then
        let r := foldItemsCore p.1 rest
        (r.1, p.2 :: r.2)
      else
        let vd : ModuleItem := .stmt (.declS (.varD .varK p.1.initVars))
        let r := foldItemsCore { p.1 with initVars := [] } rest
        (r.1, vd :: p.2 :: r.2)
    else
      let r := foldItemsCore s rest
      (r.1, it :: r.2)

/-- `Legacy::fold_stmt_like` at `Vec<ModuleItem>` (reached from
`fold_module_items`, mod.rs lines 197-199). -/
def foldItems (s : St) (items : List ModuleItem) : St × List ModuleItem :=
  if containsDecItems items then foldItemsCore s items else (s, items)

/-- `fold_module` (mod.rs lines 126-159): fold the body, prepend the
uninitialized temporaries once as a single `var` declaration at the very
top, append the pending exports once as a single named export at the very
end.  The enum-kind collection visit is omitted (metadata mode disabled). -/
def foldModule (s : St) (m : Module) : St × Module :=
  let p := foldItems s m.body
  let q :=
    if p.1.uninitVars.isEmpty then (p.1, p.2)
    else
      ({ p.1 with uninitVars := [] },
       ModuleItem.stmt (.declS (.varD .varK (uninitToVDs p.1.uninitVars))) :: p.2)
  let r :=
    if q.1.exports.isEmpty then (q.1, q.2)
    else ({ q.1 with exports := [] }, q.2 ++ [ModuleItem.exportNamed q.1.exports])
  (r.1, ⟨r.2⟩)

/-- `fold_script` (mod.rs lines 201-217): fold the body and prepend the
uninitialized temporaries once at the very top; scripts have no exports. -/
def foldScript (s : St) (sc : Script) : St × Script :=
  let p := foldStmts s sc.body
  let q :=
    if p.1.uninitVars.isEmpty then (p.1, p.2)
    else
      ({ p.1 with uninitVars := [] },
       Stmt.declS (.varD .varK (uninitToVDs p.1.uninitVars)) :: p.2)
  (q.1, ⟨q.2⟩)

/-- Running the pass on a module: a fresh `Legacy` state per run. -/
def passModule (m : Module) : Module := (foldModule st0 m).2

/-- Running the pass on a script: a fresh `Legacy` state per run. -/
def passScript (sc : Script) : Script := (foldScript st0 sc).2

/-! ## Identifier replacement preserves decorator counts -/

mutual
theorem decE_replE (o n : Ident) : ∀ e, decE (replE o n e) = decE e
  | .identE _ => by simp [replE, decE]
  | .lit _ => by simp [replE, decE]
  | .thisE => by simp [replE, decE]
  | .assign lhs r => by simp [replE, decE, decE_replE o n r]
  | .bin op l r => by simp [replE, decE, decE_replE o n l, decE_replE o n r]
  | .cond t c a => by
    simp [replE, decE, decE_replE o n t, decE_replE o n c, decE_replE o n a]
  | .call c args => by
    simp [replE, decE, decCallee_replCallee o n c, decEL_replEL o n args]
  | .member ob p => by simp [replE, decE, decE_replE o n ob]
  | .seq es => by simp [replE, decE, decEL_replEL o n es]
  | .array es => by simp [replE, decE, decEL_replEL o n es]
  | .object ps => by simp [replE, decE, decOPs_replOPs o n ps]
  | .fnE nm f => by simp [replE, decE, decFn_replFn o n f]
  | .classE ident k => by simp [replE, decE, decClassK_replClassK o n k]
  | .unary op e => by simp [replE, decE, decE_replE o n e]
  | .spread e => by simp [replE, decE, decE_replE o n e]

theorem decEL_replEL (o n : Ident) : ∀ es, decEL (replEL o n es) = decEL es
  | [] => by simp [replEL, decEL]
  | e :: es => by simp [replEL, decEL, decE_replE o n e, decEL_replEL o n es]

theorem decCallee_replCallee (o n : Ident) :
    ∀ c, decCallee (replCallee o n c) = decCallee c
  | .cexpr e => by simp [replCallee, decCallee, decE_replE o n e]
  | .csuper => by simp [replCallee, decCallee]

theorem decOPs_replOPs (o n : Ident) : ∀ ps, decOPs (replOPs o n ps) = decOPs ps
  | [] => by simp [replOPs, decOPs]
  | .kv k v :: ps => by simp [replOPs, decOPs, decE_replE o n v, decOPs_replOPs o n ps]

theorem decDecs_replEL (o n : Ident) : ∀ es, decDecs (replEL o n es) = decDecs es
  | [] => by simp [replEL, decDecs]
  | e :: es => by simp [replEL, decDecs, decE_replE o n e, decDecs_replEL o n es]

theorem decFn_replFn (o n : Ident) : ∀ f, decFn (replFn o n f) = decFn f
  | .mk params decorators body => by
    simp [replFn, decFn, decParams_replParams o n params,
      decDecs_replEL o n decorators, decOBody_replOBody o n body]

theorem decParams_replParams (o n : Ident) :
    ∀ ps, decParams (replParams o n ps) = decParams ps
  | [] => by simp [replParams, decParams]
  | .mk ds p :: ps => by
    simp [replParams, decParams, decDecs_replEL o n ds, decParams_replParams o n ps]

theorem decOBody_replOBody (o n : Ident) :
    ∀ b, decOBody (replOBody o n b) = decOBody b
  | none => by simp [replOBody, decOBody]
  | some ss => by simp [replOBody, decOBody, decSL_replSL o n ss]

theorem decOptE_replOptE (o n : Ident) :
    ∀ e, decOptE (replOptE o n e) = decOptE e
  | none => by simp [replOptE, decOptE]
  | some e => by simp [replOptE, decOptE, decE_replE o n e]

theorem decPropName_replPropName (o n : Ident) :
    ∀ k, decPropName (replPropName o n k) = decPropName k
  | .idKey _ => by simp [replPropName, decPropName]
  | .strKey _ => by simp [replPropName, decPropName]
  | .numKey _ => by simp [replPropName, decPropName]
  | .computed e => by simp [replPropName, decPropName, decE_replE o n e]

theorem decMember_replMember (o n : Ident) :
    ∀ m, decMember (replMember o n m) = decMember m
  | .ctorM params body => by
    simp [replMember, decMember, decParams_replParams o n params,
      decOBody_replOBody o n body]
  | .method key st f => by
    simp [replMember, decMember, decPropName_replPropName o n key, decFn_replFn o n f]
  | .propM key st ds v => by
    simp [replMember, decMember, decPropName_replPropName o n key,
      decDecs_replEL o n ds, decOptE_replOptE o n v]
  | .privateMethod nm st f => by simp [replMember, decMember, decFn_replFn o n f]
  | .privateProp nm st ds v => by
    simp [replMember, decMember, decDecs_replEL o n ds, decOptE_replOptE o n v]
  | .emptyM => by simp [replMember, decMember]

theorem decMembers_replMembers (o n : Ident) :
    ∀ ms, decMembers (replMembers o n ms) = decMembers ms
  | [] => by simp [replMembers, decMembers]
  | m :: ms => by
    simp [replMembers, decMembers, decMember_replMember o n m,
      decMembers_replMembers o n ms]

theorem decClassK_replClassK (o n : Ident) :
    ∀ k, decClassK (replClassK o n k) = decClassK k
  | .mk decorators body superClass => by
    simp [replClassK, decClassK, decDecs_replEL o n decorators,
      decMembers_replMembers o n body, decOptE_replOptE o n superClass]

theorem decStmt_replStmt (o n : Ident) :
    ∀ st, decStmt (replStmt o n st) = decStmt st
  | .exprS e => by simp [replStmt, decStmt, decE_replE o n e]
  | .declS d => by simp [replStmt, decStmt, decDecl_replDecl o n d]
  | .ret e => by simp [replStmt, decStmt, decOptE_replOptE o n e]
  | .block ss => by simp [replStmt, decStmt, decSL_replSL o n ss]
  | .emptyS => by simp [replStmt, decStmt]

theorem decSL_replSL (o n : Ident) : ∀ ss, decSL (replSL o n ss) = decSL ss
  | [] => by simp [replSL, decSL]
  | s :: ss => by simp [replSL, decSL, decStmt_replStmt o n s, decSL_replSL o n ss]

theorem decDecl_replDecl (o n : Ident) :
    ∀ d, decDecl (replDecl o n d) = decDecl d
  | .classD ident k => by simp [replDecl, decDecl, decClassK_replClassK o n k]
  | .varD kind ds => by simp [replDecl, decDecl, decVDs_replVDs o n ds]
  | .fnD ident f => by simp [replDecl, decDecl, decFn_replFn o n f]

theorem decVDs_replVDs (o n : Ident) :
    ∀ ds, decVDs (replVDs o n ds) = decVDs ds
  | [] => by simp [replVDs, decVDs]
  | .mk nm i :: ds => by
    simp [replVDs, decVDs, decOptE_replOptE o n i, decVDs_replVDs o n ds]
end

/-! ## Identifier replacement leaves no occurrence of the replaced ident -/

mutual
theorem cntE_replE (o n : Ident) (h : n ≠ o) : ∀ e, cntE o (replE o n e) = 0
  | .identE i => by
    by_cases hi : i = o <;> simp [replE, cntE, hi, h]
  | .lit _ => by simp [replE, cntE]
  | .thisE => by simp [replE, cntE]
  | .assign lhs r => by
    by_cases hl : lhs = o <;>
      simp [replE, cntE, hl, h, cntE_replE o n h r]
  | .bin op l r => by simp [replE, cntE, cntE_replE o n h l, cntE_replE o n h r]
  | .cond t c a => by
    simp [replE, cntE, cntE_replE o n h t, cntE_replE o n h c, cntE_replE o n h a]
  | .call c args => by
    simp [replE, cntE, cntCallee_replCallee o n h c, cntEL_replEL o n h args]
  | .member ob p => by simp [replE, cntE, cntE_replE o n h ob]
  | .seq es => by simp [replE, cntE, cntEL_replEL o n h es]
  | .array es => by simp [replE, cntE, cntEL_replEL o n h es]
  | .object ps => by simp [replE, cntE, cntOPs_replOPs o n h ps]
  | .fnE nm f => by
    simp [replE, cntE, cntOI_replOI o n h nm, cntFn_replFn o n h f]
  | .classE ident k => by
    simp [replE, cntE, cntOI_replOI o n h ident, cntClassK_replClassK o n h k]
  | .unary op e => by simp [replE, cntE, cntE_replE o n h e]
  | .spread e => by simp [replE, cntE, cntE_replE o n h e]

theorem cntOI_replOI (o n : Ident) (h : n ≠ o) :
    ∀ i, cntOI o (replOI o n i) = 0
  | none => by simp [replOI, cntOI]
  | some i => by by_cases hi : i = o <;> simp [replOI, cntOI, hi, h]

theorem cntCallee_replCallee (o n : Ident) (h : n ≠ o) :
    ∀ c, cntCallee o (replCallee o n c) = 0
  | .cexpr e => by simp [replCallee, cntCallee, cntE_replE o n h e]
  | .csuper => by simp [replCallee, cntCallee]

theorem cntEL_replEL (o n : Ident) (h : n ≠ o) :
    ∀ es, cntEL o (replEL o n es) = 0
  | [] => by simp [replEL, cntEL]
  | e :: es => by simp [replEL, cntEL, cntE_replE o n h e, cntEL_replEL o n h es]

theorem cntOPs_replOPs (o n : Ident) (h : n ≠ o) :
    ∀ ps, cntOPs o (replOPs o n ps) = 0
  | [] => by simp [replOPs, cntOPs]
  | .kv k v :: ps => by
    simp [replOPs, cntOPs, cntE_replE o n h v, cntOPs_replOPs o n h ps]

theorem cntFn_replFn (o n : Ident) (h : n ≠ o) :
    ∀ f, cntFn o (replFn o n f) = 0
  | .mk params decorators body => by
    simp [replFn, cntFn, cntParams_replParams o n h params,
      cntEL_replEL o n h decorators, cntOBody_replOBody o n h body]

theorem cntParams_replParams (o n : Ident) (h : n ≠ o) :
    ∀ ps, cntParams o (replParams o n ps) = 0
  | [] => by simp [replParams, cntParams]
  | .mk ds p :: ps => by
    simp [replParams, cntParams, cntEL_replEL o n h ds, cntPat_replPat o n h p,
      cntParams_replParams o n h ps]

theorem cntPat_replPat (o n : Ident) (h : n ≠ o) :
    ∀ p, cntPat o (replPat o n p) = 0
  | .id i => by by_cases hi : i = o <;> simp [replPat, cntPat, hi, h]
  | .restId i => by by_cases hi : i = o <;> simp [replPat, cntPat, hi, h]

theorem cntOBody_replOBody (o n : Ident) (h : n ≠ o) :
    ∀ b, cntOBody o (replOBody o n b) = 0
  | none => by simp [replOBody, cntOBody]
  | some ss => by simp [replOBody, cntOBody, cntSL_replSL o n h ss]

theorem cntOptE_replOptE (o n : Ident) (h : n ≠ o) :
    ∀ e, cntOptE o (replOptE o n e) = 0
  | none => by simp [replOptE, cntOptE]
  | some e => by simp [replOptE, cntOptE, cntE_replE o n h e]

theorem cntPropName_replPropName (o n : Ident) (h : n ≠ o) :
    ∀ k, cntPropName o (replPropName o n k) = 0
  | .idKey _ => by simp [replPropName, cntPropName]
  | .strKey _ => by simp [replPropName, cntPropName]
  | .numKey _ => by simp [replPropName, cntPropName]
  | .computed e => by simp [replPropName, cntPropName, cntE_replE o n h e]

theorem cntMember_replMember (o n : Ident) (h : n ≠ o) :
    ∀ m, cntMember o (replMember o n m) = 0
  | .ctorM params body => by
    simp [replMember, cntMember, cntParams_replParams o n h params,
      cntOBody_replOBody o n h body]
  | .method key st f => by
    simp [replMember, cntMember, cntPropName_replPropName o n h key,
      cntFn_replFn o n h f]
  | .propM key st ds v => by
    simp [replMember, cntMember, cntPropName_replPropName o n h key,
      cntEL_replEL o n h ds, cntOptE_replOptE o n h v]
  | .privateMethod nm st f => by simp [replMember, cntMember, cntFn_replFn o n h f]
  | .privateProp nm st ds v => by
    simp [replMember, cntMember, cntEL_replEL o n h ds, cntOptE_replOptE o n h v]
  | .emptyM => by simp [replMember, cntMember]

theorem cntMembers_replMembers (o n : Ident) (h : n ≠ o) :
    ∀ ms, cntMembers o (replMembers o n ms) = 0
  | [] => by simp [replMembers, cntMembers]
  | m :: ms => by
    simp [replMembers, cntMembers, cntMember_replMember o n h m,
      cntMembers_replMembers o n h ms]

theorem cntClassK_replClassK (o n : Ident) (h : n ≠ o) :
    ∀ k, cntClassK o (replClassK o n k) = 0
  | .mk decorators body superClass => by
    simp [replClassK, cntClassK, cntEL_replEL o n h decorators,
      cntMembers_replMembers o n h body, cntOptE_replOptE o n h superClass]

theorem cntStmt_replStmt (o n : Ident) (h : n ≠ o) :
    ∀ st, cntStmt o (replStmt o n st) = 0
  | .exprS e => by simp [replStmt, cntStmt, cntE_replE o n h e]
  | .declS d => by simp [replStmt, cntStmt, cntDecl_replDecl o n h d]
  | .ret e => by simp [replStmt, cntStmt, cntOptE_replOptE o n h e]
  | .block ss => by simp [replStmt, cntStmt, cntSL_replSL o n h ss]
  | .emptyS => by simp [replStmt, cntStmt]

theorem cntSL_replSL (o n : Ident) (h : n ≠ o) :
    ∀ ss, cntSL o (replSL o n ss) = 0
  | [] => by simp [replSL, cntSL]
  | s :: ss => by simp [replSL, cntSL, cntStmt_replStmt o n h s, cntSL_replSL o n h ss]

theorem cntDecl_replDecl (o n : Ident) (h : n ≠ o) :
    ∀ d, cntDecl o (replDecl o n d) = 0
  | .classD ident k => by
    by_cases hi : ident = o <;>
      simp [replDecl, cntDecl, hi, h, cntClassK_replClassK o n h k]
  | .varD kind ds => by simp [replDecl, cntDecl, cntVDs_replVDs o n h ds]
  | .fnD ident f => by
    by_cases hi : ident = o <;>
      simp [replDecl, cntDecl, hi, h, cntFn_replFn o n h f]

theorem cntVDs_replVDs (o n : Ident) (h : n ≠ o) :
    ∀ ds, cntVDs o (replVDs o n ds) = 0
  | [] => by simp [replVDs, cntVDs]
  | .mk nm i :: ds => by
    by_cases hn : nm = o <;>
      simp [replVDs, cntVDs, hn, h, cntOptE_replOptE o n h i, cntVDs_replVDs o n h ds]
end

/-! ## List additivity of the decorator counters -/

theorem decEL_append : ∀ a b : List Expr, decEL (a ++ b) = decEL a + decEL b
  | [], b => by simp [decEL]
  | e :: a, b => by simp [decEL, decEL_append a b]; omega

theorem decSL_append : ∀ a b : List Stmt, decSL (a ++ b) = decSL a + decSL b
  | [], b => by simp [decSL]
  | s :: a, b => by simp [decSL, decSL_append a b]; omega

theorem decMembers_append :
    ∀ a b : List ClassMember, decMembers (a ++ b) = decMembers a + decMembers b
  | [], b => by simp [decMembers]
  | m :: a, b => by simp [decMembers, decMembers_append a b]; omega

theorem decVDs_append :
    ∀ a b : List VarDeclarator, decVDs (a ++ b) = decVDs a + decVDs b
  | [], b => by simp [decVDs]
  | .mk nm i :: a, b => by simp [decVDs, decVDs_append a b]; omega

theorem decSL_take_drop (l : List Stmt) (p : Nat) :
    decSL (l.take p) + decSL (l.drop p) = decSL l := by
  have h := decSL_append (l.take p) (l.drop p)
  rw [List.take_append_drop] at h
  omega

/-! ## Cleanliness of the pieces of `handle`

A state is clean when the expressions stored in `initialized_vars` contain
no decorators; those are the only state-held expressions that are later
spliced back into the output AST (`uninitialized_vars` entries carry no
initializer and export specifiers carry no expression). -/

def cleanSt (s : St) : Prop := decVDs s.initVars = 0

theorem resolveDecs_initVars (cn : Option Ident) (ci : Ident) :
    ∀ (s : St) (ds : List Expr), (resolveDecs cn ci s ds).1.initVars = s.initVars
  | s, [] => by simp [resolveDecs]
  | s, d :: ds => by
    cases d <;>
      simp [resolveDecs, aliasIfRequired, freshIdent, resolveDecs_initVars cn ci _ ds]

theorem resolveDecs_refs_clean (cn : Option Ident) (ci : Ident) :
    ∀ (s : St) (ds : List Expr), decEL (resolveDecs cn ci s ds).2.1 = 0
  | s, [] => by simp [resolveDecs, decEL]
  | s, d :: ds => by
    cases d <;>
      simp [resolveDecs, aliasIfRequired, freshIdent, decEL, decE,
        resolveDecs_refs_clean cn ci _ ds]

theorem replaceClsRef_dec (cn : Option Ident) (ci : Ident) (e : Expr) :
    decE (replaceClsRef cn ci e) = decE e := by
  cases cn <;> simp [replaceClsRef, decE_replE]

theorem resolveDecs_inits_clean (cn : Option Ident) (ci : Ident) :
    ∀ (s : St) (ds : List Expr), decEL ds = 0 →
      decEL (resolveDecs cn ci s ds).2.2 = 0
  | s, [], h => by simp [resolveDecs, decEL]
  | s, d :: ds, h => by
    have hd : decE d = 0 := by simp [decEL] at h; omega
    have hds : decEL ds = 0 := by simp [decEL] at h; omega
    cases d <;>
      simp_all [resolveDecs, aliasIfRequired, freshIdent, decEL, decE,
        decEL_append, replaceClsRef_dec,
        resolveDecs_inits_clean cn ci _ ds hds]

theorem methodKeyName_initVars (cn : Option Ident) (ci : Ident) (s : St)
    (key : PropName) : (methodKeyName cn ci s key).1.initVars = s.initVars := by
  cases key with
  | computed e => cases e <;> simp [methodKeyName, aliasIfRequired, freshIdent]
  | _ => simp [methodKeyName]

theorem methodKeyName_clean (cn : Option Ident) (ci : Ident) (s : St)
    (key : PropName) (h : decPropName key = 0) :
    decE (methodKeyName cn ci s key).2.1 = 0 ∧
      decEL (methodKeyName cn ci s key).2.2 = 0 := by
  cases key with
  | computed e =>
    have he : decE e = 0 := h
    cases e <;>
      simp_all [methodKeyName, aliasIfRequired, freshIdent, decE, decEL,
        replaceClsRef_dec]
  | idKey s => simp [methodKeyName, propNameToExprValue, decE, decEL]
  | strKey s => simp [methodKeyName, propNameToExprValue, decE, decEL]
  | numKey n => simp [methodKeyName, propNameToExprValue, decE, decEL]

theorem lowerMethodParams_params_clean (t n : Expr) :
    ∀ (k : Nat) (ps : List Param), decParams (lowerMethodParams t n k ps).2 = 0
  | k, [] => by simp [lowerMethodParams, decParams]
  | k, .mk ds pat :: ps => by
    simp [lowerMethodParams, decParams, decDecs,
      lowerMethodParams_params_clean t n (k + 1) ps]

theorem decEL_map_paramCall (t n : Expr) (ht : decE t = 0) (hn : decE n = 0)
    (idx : Nat) :
    ∀ ds : List Expr, decEL ds = 0 →
      decEL (ds.map fun d => Expr.call (.cexpr d) [t, n, .lit (.num (idx : Int))]) = 0
  | [], h => by simp [decEL]
  | d :: ds, h => by
    have hd : decE d = 0 := by simp [decEL] at h; omega
    have hds : decEL ds = 0 := by simp [decEL] at h; omega
    simp [decEL, decE, decCallee, ht, hn, hd, decEL_map_paramCall t n ht hn idx ds hds]

theorem lowerMethodParams_calls_clean (t n : Expr) (ht : decE t = 0)
    (hn : decE n = 0) :
    ∀ (k : Nat) (ps : List Param), pendParams ps = 0 →
      decEL (lowerMethodParams t n k ps).1 = 0
  | k, [], h => by simp [lowerMethodParams, decEL]
  | k, .mk ds pat :: ps, h => by
    have hd : decEL ds = 0 := by simp [pendParams, Param.decorators] at h; omega
    have hps : pendParams ps = 0 := by simp [pendParams, Param.decorators] at h; omega
    simp [lowerMethodParams, decEL_append, decEL_map_paramCall t n ht hn k ds hd,
      lowerMethodParams_calls_clean t n ht hn (k + 1) ps hps]

theorem paramsAllEmpty_decParams :
    ∀ ps : List Param, (ps.all fun p => p.decorators.isEmpty) = true →
      decParams ps = 0
  | [], _ => by simp [decParams]
  | .mk ds pat :: ps, h => by
    simp [Param.decorators] at h
    obtain ⟨h1, h2⟩ := h
    have := paramsAllEmpty_decParams ps (by simpa [List.all_eq_true] using h2)
    simp [decParams, h1, decDecs, this]

theorem decE_target (ci : Ident) (proto : Expr) (hproto : decE proto = 0)
    (b : Bool) : decE (if b then Expr.identE ci else proto) = 0 := by
  cases b <;> simp [decE, hproto]

theorem decE_propKeyStr (key : PropName) (h : decPropName key = 0) :
    decE (propKeyStrName key) = 0 := by
  cases key with
  | computed e => simpa [propKeyStrName, propNameToExpr, decPropName] using h
  | idKey s => simp [propKeyStrName, decE]
  | strKey s => simp [propKeyStrName, propNameToExpr, decE]
  | numKey n => simp [propKeyStrName, propNameToExpr, decE]

theorem descriptorLit_clean (isStatic : Bool) (initTmp : Ident)
    (value : Option Expr) (hv : decOptE value = 0) :
    decE (descriptorLit isStatic initTmp value) = 0 := by
  cases value with
  | none =>
    simp [descriptorLit, undefinedE, decE, decOPs, decFn, decParams, decOBody,
      decSL, decStmt, decOptE, decDecs]
  | some v =>
    have : decE v = 0 := hv
    cases isStatic <;>
      simp [descriptorLit, decE, decOPs, decFn, decParams, decOBody,
        decSL, decStmt, decOptE, decDecs, this]

theorem lowerMember_clean (ci : Ident) (cn : Option Ident) (proto : Expr)
    (hproto : decE proto = 0) (acc : HAcc) (m : ClassMember)
    (hm : pendMember m = 0)
    (hdi : decEL acc.decInits = 0) (hex : decEL acc.extras = 0)
    (hcs : decSL acc.ctorStmts = 0) :
    decEL (lowerMember ci cn proto acc m).1.decInits = 0 ∧
    decEL (lowerMember ci cn proto acc m).1.extras = 0 ∧
    decSL (lowerMember ci cn proto acc m).1.ctorStmts = 0 ∧
    (lowerMember ci cn proto acc m).1.s.initVars = acc.s.initVars ∧
    (∀ m2, (lowerMember ci cn proto acc m).2 = some m2 → decMember m2 = 0) := by
  cases m with
  | ctorM params body =>
    refine ⟨hdi, hex, hcs, rfl, ?_⟩
    intro m2 hm2
    simp [lowerMember] at hm2
    subst hm2
    simpa [decMember, pendMember] using hm
  | emptyM =>
    refine ⟨hdi, hex, hcs, rfl, ?_⟩
    intro m2 hm2
    simp [lowerMember] at hm2
    subst hm2
    simp [decMember]
  | privateMethod nm st f =>
    refine ⟨hdi, hex, hcs, rfl, ?_⟩
    intro m2 hm2
    simp [lowerMember] at hm2
    subst hm2
    simpa [decMember, pendMember] using hm
  | privateProp nm st ds v =>
    refine ⟨hdi, hex, hcs, rfl, ?_⟩
    intro m2 hm2
    simp [lowerMember] at hm2
    subst hm2
    simpa [decMember, pendMember] using hm
  | method key isStatic f =>
    cases f with
    | mk params fdecs body =>
      have hkey : decPropName key = 0 := by simp [pendMember] at hm; omega
      have hparams : pendParams params = 0 := by simp [pendMember, pendFn] at hm; omega
      have hfdecs : decEL fdecs = 0 := by simp [pendMember, pendFn] at hm; omega
      have hbody : decOBody body = 0 := by simp [pendMember, pendFn] at hm; omega
      by_cases hneed : methodNeedsLowering (.mk params fdecs body) = true
      · have htarget := decE_target ci proto hproto isStatic
        have hk := methodKeyName_clean cn ci (resolveDecs cn ci acc.s fdecs).1 key hkey
        have hrefs := resolveDecs_refs_clean cn ci acc.s fdecs
        have hinits := resolveDecs_inits_clean cn ci acc.s fdecs hfdecs
        have hpc := lowerMethodParams_calls_clean
          (if isStatic then Expr.identE ci else proto)
          (methodKeyName cn ci (resolveDecs cn ci acc.s fdecs).1 key).2.1
          htarget hk.1 0 params hparams
        have hpp := lowerMethodParams_params_clean
          (if isStatic then Expr.identE ci else proto)
          (methodKeyName cn ci (resolveDecs cn ci acc.s fdecs).1 key).2.1 0 params
        refine ⟨?_, ?_, ?_, ?_, ?_⟩
        · simp [lowerMember, hneed, decEL_append, hdi, hk.2]
        · simp [lowerMember, hneed, decEL_append, hex, hpc, hinits, decEL, decE,
            decCallee, getOwnPropDesc, htarget, hk.1, hrefs]
        · simp [lowerMember, hneed, hcs]
        · simp [lowerMember, hneed, methodKeyName_initVars,
            resolveDecs_initVars]
        · intro m2 hm2
          simp [lowerMember, hneed] at hm2
          subst hm2
          simp [decMember, hkey, decFn, hpp, decDecs, hbody]
      · refine ⟨?_, ?_, ?_, ?_, ?_⟩
        · simpa [lowerMember, hneed] using hdi
        · simpa [lowerMember, hneed] using hex
        · simpa [lowerMember, hneed] using hcs
        · simp [lowerMember, hneed]
        · intro m2 hm2
          simp [lowerMember, hneed] at hm2
          subst hm2
          simp [methodNeedsLowering] at hneed
          have hfd : fdecs = [] := hneed.1
          have hpe := paramsAllEmpty_decParams params (by
            simpa [List.all_eq_true] using hneed.2)
          simp [decMember, hkey, decFn, hpe, hfd, decDecs, hbody]
  | propM key isStatic decs value =>
    have hkey : decPropName key = 0 := by simp [pendMember] at hm; omega
    have hdecs : decEL decs = 0 := by simp [pendMember] at hm; omega
    have hval : decOptE value = 0 := by simp [pendMember] at hm; omega
    by_cases hempty : decs.isEmpty = true
    · refine ⟨?_, ?_, ?_, ?_, ?_⟩
      · simpa [lowerMember, hempty] using hdi
      · simpa [lowerMember, hempty] using hex
      · simpa [lowerMember, hempty] using hcs
      · simp [lowerMember, hempty]
      · intro m2 hm2
        simp [lowerMember, hempty] at hm2
        subst hm2
        have : decs = [] := by simpa [List.isEmpty_iff] using hempty
        simp [decMember, hkey, this, decDecs, hval]
    · have hnameE := decE_propKeyStr key hkey
      have hrefs : ∀ s2 : St, decEL (resolveDecs cn ci s2 decs).2.1 = 0 :=
        fun s2 => resolveDecs_refs_clean cn ci s2 decs
      have hinits : ∀ s2 : St, decEL (resolveDecs cn ci s2 decs).2.2 = 0 :=
        fun s2 => resolveDecs_inits_clean cn ci s2 decs hdecs
      have hivars : ∀ s2 : St, (resolveDecs cn ci s2 decs).1.initVars = s2.initVars :=
        fun s2 => resolveDecs_initVars cn ci s2 decs
      cases isStatic with
      | true =>
        refine ⟨?_, ?_, ?_, ?_, ?_⟩
        · simp [lowerMember, hempty, decEL_append, hdi, hinits]
        · cases value with
          | none =>
            simp [lowerMember, hempty, decEL_append, hex, decEL, decE, decCallee,
              getOwnPropDesc, hnameE, hrefs, descriptorLit, undefinedE, decOPs,
              decFn, decParams, decOBody, decSL, decStmt, decOptE, decDecs]
          | some v =>
            have hv : decE v = 0 := hval
            simp [lowerMember, hempty, decEL_append, hex, decEL, decE, decCallee,
              getOwnPropDesc, hnameE, hrefs, descriptorLit, undefinedE, decOPs,
              decFn, decParams, decOBody, decSL, decStmt, decOptE, decDecs, hv]
        · simpa [lowerMember, hempty] using hcs
        · simp [lowerMember, hempty, hivars, freshIdent]
        · intro m2 hm2
          simp [lowerMember, hempty] at hm2
          subst hm2
          simp [decMember, hkey, decDecs, hval]
      | false =>
        refine ⟨?_, ?_, ?_, ?_, ?_⟩
        · simp [lowerMember, hempty, decEL_append, hdi, hinits]
        · cases value with
          | none =>
            simp [lowerMember, hempty, decEL_append, hex, decEL, decE, decCallee,
              getOwnPropDesc, hproto, hnameE, hrefs, descriptorLit, undefinedE,
              decOPs, decFn, decParams, decOBody, decSL, decStmt, decOptE, decDecs]
          | some v =>
            have hv : decE v = 0 := hval
            simp [lowerMember, hempty, decEL_append, hex, decEL, decE, decCallee,
              getOwnPropDesc, hproto, hnameE, hrefs, descriptorLit, undefinedE,
              decOPs, decFn, decParams, decOBody, decSL, decStmt, decOptE, decDecs, hv]
        · simp [lowerMember, hempty, decSL_append, hcs, decSL, decStmt, idpStmt,
            decE, decCallee, decEL, hnameE]
        · simp [lowerMember, hempty, hivars, freshIdent]
        · intro m2 hm2
          simp [lowerMember, hempty] at hm2

theorem lowerMembers_clean (ci : Ident) (cn : Option Ident) (proto : Expr)
    (hproto : decE proto = 0) :
    ∀ (acc : HAcc) (ms : List ClassMember), pendMembers ms = 0 →
      decEL acc.decInits = 0 → decEL acc.extras = 0 → decSL acc.ctorStmts = 0 →
      decEL (lowerMembers ci cn proto acc ms).1.decInits = 0 ∧
      decEL (lowerMembers ci cn proto acc ms).1.extras = 0 ∧
      decSL (lowerMembers ci cn proto acc ms).1.ctorStmts = 0 ∧
      (lowerMembers ci cn proto acc ms).1.s.initVars = acc.s.initVars ∧
      decMembers (lowerMembers ci cn proto acc ms).2 = 0
  | acc, [], _, h1, h2, h3 => by simp [lowerMembers, decMembers, h1, h2, h3]
  | acc, m :: ms, hp, h1, h2, h3 => by
    have hm : pendMember m = 0 := by simp [pendMembers] at hp; omega
    have hms : pendMembers ms = 0 := by simp [pendMembers] at hp; omega
    obtain ⟨c1, c2, c3, c4, c5⟩ :=
      lowerMember_clean ci cn proto hproto acc m hm h1 h2 h3
    obtain ⟨i1, i2, i3, i4, i5⟩ :=
      lowerMembers_clean ci cn proto hproto
        (lowerMember ci cn proto acc m).1 ms hms c1 c2 c3
    refine ⟨?_, ?_, ?_, ?_, ?_⟩ <;> simp only [lowerMembers]
    · exact i1
    · exact i2
    · exact i3
    · rw [i4, c4]
    · cases hst : (lowerMember ci cn proto acc m).2 with
      | none => simpa [hst] using i5
      | some m2 => simp [hst, decMembers, c5 m2 hst, i5]

theorem spliceCtorStmts_clean (inj stmts : List Stmt) (hi : decSL inj = 0)
    (hs : decSL stmts = 0) : decSL (spliceCtorStmts inj stmts) = 0 := by
  have h := decSL_take_drop stmts (superInsertPos stmts)
  simp [spliceCtorStmts, decSL_append]
  omega

theorem injectIntoFirstCtor_clean (inj : List Stmt) (hi : decSL inj = 0) :
    ∀ ms : List ClassMember, decMembers ms = 0 →
      decMembers (injectIntoFirstCtor inj ms) = 0
  | [], _ => by simp [injectIntoFirstCtor, decMembers]
  | .ctorM params body :: ms, h => by
    have hp : decParams params = 0 := by simp [decMembers, decMember] at h; omega
    have hb : decOBody body = 0 := by simp [decMembers, decMember] at h; omega
    have hms : decMembers ms = 0 := by simp [decMembers] at h; omega
    have hbd : decSL (body.getD []) = 0 := by
      cases body <;> simp_all [decOBody, decSL]
    simp [injectIntoFirstCtor, decMembers, decMember, decOBody, hp, hms,
      spliceCtorStmts_clean inj _ hi hbd]
  | .method key st f :: ms, h => by
    have hm : decMember (.method key st f) = 0 := by simp [decMembers] at h; omega
    have hms : decMembers ms = 0 := by simp [decMembers] at h; omega
    simp [injectIntoFirstCtor, decMembers, hm,
      injectIntoFirstCtor_clean inj hi ms hms]
  | .propM key st ds v :: ms, h => by
    have hm : decMember (.propM key st ds v) = 0 := by simp [decMembers] at h; omega
    have hms : decMembers ms = 0 := by simp [decMembers] at h; omega
    simp [injectIntoFirstCtor, decMembers, hm,
      injectIntoFirstCtor_clean inj hi ms hms]
  | .privateMethod nm st f :: ms, h => by
    have hm : decMember (.privateMethod nm st f) = 0 := by
      simp [decMembers] at h; omega
    have hms : decMembers ms = 0 := by simp [decMembers] at h; omega
    simp [injectIntoFirstCtor, decMembers, hm,
      injectIntoFirstCtor_clean inj hi ms hms]
  | .privateProp nm st ds v :: ms, h => by
    have hm : decMember (.privateProp nm st ds v) = 0 := by
      simp [decMembers] at h; omega
    have hms : decMembers ms = 0 := by simp [decMembers] at h; omega
    simp [injectIntoFirstCtor, decMembers, hm,
      injectIntoFirstCtor_clean inj hi ms hms]
  | .emptyM :: ms, h => by
    have hms : decMembers ms = 0 := by simp [decMembers, decMember] at h; omega
    simp [injectIntoFirstCtor, decMembers, decMember,
      injectIntoFirstCtor_clean inj hi ms hms]

theorem defaultCtor_clean (b : Bool) : decMember (defaultCtor b) = 0 := by
  cases b <;> decide

theorem injectCtorStmts_clean (inj : List Stmt) (hasSuper : Bool)
    (ms : List ClassMember) (hi : decSL inj = 0) (hm : decMembers ms = 0) :
    decMembers (injectCtorStmts inj hasSuper ms) = 0 := by
  by_cases h : ms.any isCtorMember = true
  · simpa [injectCtorStmts, h] using injectIntoFirstCtor_clean inj hi ms hm
  · have hall : decMembers (ms ++ [defaultCtor hasSuper]) = 0 := by
      simp [decMembers_append, decMembers, hm, defaultCtor_clean]
    simpa [injectCtorStmts, h] using
      injectIntoFirstCtor_clean inj hi (ms ++ [defaultCtor hasSuper]) hall

theorem decEL_reverse : ∀ l : List Expr, decEL l.reverse = decEL l
  | [] => rfl
  | e :: l => by
    simp [List.reverse_cons, decEL_append, decEL, decEL_reverse l]
    omega

theorem applyFoldl_clean (ci : Ident) :
    ∀ (l : List Expr) (s : St) (e : Expr), decEL l = 0 → decVDs s.initVars = 0 →
      decE e = 0 →
      decE (List.foldl (applyStep ci) (s, e) l).2 = 0 ∧
      decVDs (List.foldl (applyStep ci) (s, e) l).1.initVars = 0
  | [], s, e, _, hs, he => by simpa [List.foldl] using ⟨he, hs⟩
  | d :: l, s, e, hl, hs, he => by
    have hd : decE d = 0 := by simp [decEL] at hl; omega
    have hl2 : decEL l = 0 := by simp [decEL] at hl; omega
    have hstep : decE (applyStep ci (s, e) d).2 = 0 ∧
        decVDs (applyStep ci (s, e) d).1.initVars = 0 := by
      cases d <;>
        simp_all [applyStep, aliasIfRequired, freshIdent, decE, decEL, decCallee,
          decVDs_append, decVDs, decOptE]
    have := applyFoldl_clean ci l (applyStep ci (s, e) d).1
      (applyStep ci (s, e) d).2 hl2 hstep.2 hstep.1
    simpa [List.foldl] using this

theorem applyDecs_clean (ci : Ident) (s : St) (e : Expr) (ds : List Expr)
    (hd : decEL ds = 0) (hs : decVDs s.initVars = 0) (he : decE e = 0) :
    decE (applyDecs ci s e ds).2 = 0 ∧
    decVDs (applyDecs ci s e ds).1.initVars = 0 := by
  have hr : decEL ds.reverse = 0 := by rw [decEL_reverse]; exact hd
  simpa [applyDecs] using applyFoldl_clean ci ds.reverse s e hr hs he

/-- Cleanliness of `handle`: when the class it receives has already-folded
children (no decorators anywhere except the strippable lists, whose
expressions are decorator-free) and the state holds no decorator-carrying
initializers, the replacement expression is decorator-free and the state
stays clean. -/
theorem handle_clean (s : St) (ident : Option Ident) (kdecs : List Expr)
    (body : List ClassMember) (superClass : Option Expr)
    (hk : pendClassK (.mk kdecs body superClass) = 0) (hs : decVDs s.initVars = 0) :
    decE (handle s ident (.mk kdecs body superClass)).2 = 0 ∧
    decVDs (handle s ident (.mk kdecs body superClass)).1.initVars = 0 := by
  have hkd : decEL kdecs = 0 := by simp [pendClassK] at hk; omega
  have hbm : pendMembers body = 0 := by simp [pendClassK] at hk; omega
  have hsup : decOptE superClass = 0 := by simp [pendClassK] at hk; omega
  have hproto : decE (Expr.member (.identE (freshIdent s "_class").2) "prototype") = 0 := by
    simp [decE]
  obtain ⟨l1, l2, l3, l4, l5⟩ :=
    lowerMembers_clean (freshIdent s "_class").2 ident
      (Expr.member (.identE (freshIdent s "_class").2) "prototype") hproto
      ⟨{ (freshIdent s "_class").1 with
           uninitVars := (freshIdent s "_class").1.uninitVars ++
             [(freshIdent s "_class").2] }, [], [], []⟩
      body hbm (by simp [decEL]) (by simp [decEL]) (by simp [decSL])
  have hivars : (lowerMembers (freshIdent s "_class").2 ident
      (Expr.member (.identE (freshIdent s "_class").2) "prototype")
      ⟨{ (freshIdent s "_class").1 with
           uninitVars := (freshIdent s "_class").1.uninitVars ++
             [(freshIdent s "_class").2] }, [], [], []⟩ body).1.s.initVars
      = s.initVars := by
    rw [l4]
    simp [freshIdent]
  set lm := lowerMembers (freshIdent s "_class").2 ident
      (Expr.member (.identE (freshIdent s "_class").2) "prototype")
      ⟨{ (freshIdent s "_class").1 with
           uninitVars := (freshIdent s "_class").1.uninitVars ++
             [(freshIdent s "_class").2] }, [], [], []⟩ body with hlm
  have hbody2 : ∀ b2 : List ClassMember,
      (b2 = if lm.1.ctorStmts.isEmpty then lm.2
            else injectCtorStmts lm.1.ctorStmts superClass.isSome lm.2) →
      decMembers b2 = 0 := by
    intro b2 hb2
    by_cases hce : lm.1.ctorStmts.isEmpty = true
    · rw [hb2]; simpa [hce] using l5
    · rw [hb2]; simp only [hce, if_false]
      exact injectCtorStmts_clean lm.1.ctorStmts superClass.isSome lm.2 l3 l5
  have hcore : ∀ c : Expr,
      (c = if (lm.1.decInits ++ lm.1.extras).isEmpty then
             Expr.bin "||"
               (.assign (freshIdent s "_class").2
                 (.classE ident (.mk []
                   (if lm.1.ctorStmts.isEmpty then lm.2
                    else injectCtorStmts lm.1.ctorStmts superClass.isSome lm.2)
                   superClass)))
               (.identE (freshIdent s "_class").2)
           else
             Expr.seq
               (Expr.bin "||"
                 (.assign (freshIdent s "_class").2
                   (.classE ident (.mk []
                     (if lm.1.ctorStmts.isEmpty then lm.2
                      else injectCtorStmts lm.1.ctorStmts superClass.isSome lm.2)
                     superClass)))
                 (.identE (freshIdent s "_class").2) ::
                 ((lm.1.decInits ++ lm.1.extras) ++ [.identE (freshIdent s "_class").2]))) →
      decE c = 0 := by
    intro c hc
    have hcls : decClassK (.mk []
        (if lm.1.ctorStmts.isEmpty then lm.2
         else injectCtorStmts lm.1.ctorStmts superClass.isSome lm.2)
        superClass) = 0 := by
      simp [decClassK, decDecs, hsup, hbody2 _ rfl]
    by_cases hee : (lm.1.decInits ++ lm.1.extras).isEmpty = true
    · rw [hc]; simp [hee, decE, hcls]
    · rw [hc]
      simp only [hee, if_false]
      simp [decE, decEL, decEL_append, hcls, l1, l2]
  constructor
  · show decE (handle s ident (.mk kdecs body superClass)).2 = 0
    simp only [handle, ← hlm]
    exact (applyDecs_clean (freshIdent s "_class").2 lm.1.s _ kdecs hkd
      (by rw [hivars]; exact hs) (hcore _ rfl)).1
  · show decVDs (handle s ident (.mk kdecs body superClass)).1.initVars = 0
    simp only [handle, ← hlm]
    exact (applyDecs_clean (freshIdent s "_class").2 lm.1.s _ kdecs hkd
      (by rw [hivars]; exact hs) (hcore _ rfl)).2

theorem handle_clean2 (s : St) (ident : Option Ident) (k : ClassK)
    (hk : pendClassK k = 0) (hs : decVDs s.initVars = 0) :
    decE (handle s ident k).2 = 0 ∧
    decVDs (handle s ident k).1.initVars = 0 := by
  cases k with
  | mk kdecs body superClass => exact handle_clean s ident kdecs body superClass hk hs

theorem badDecsHard_nil : ∀ l : List Expr, badDecsHard l = 0 → l = []
  | [], _ => rfl
  | e :: l, h => by simp [badDecsHard] at h

theorem decVDs_uninitToVDs : ∀ l : List Ident, decVDs (uninitToVDs l) = 0
  | [] => rfl
  | i :: l => by simp [uninitToVDs, decVDs, decOptE, decVDs_uninitToVDs l]

/-! ## The fold produces decorator-free output

The mutual family below follows the recursion structure of the fold: for
every node whose decorators sit only in positions the pass strips (`bad`
count zero) and every state whose initializer temporaries are
decorator-free, the folded output is decorator-free (for a class, all that
remains is the strippable lists with decorator-free expressions, measured by
`pendClassK`, which `handle_clean` then eliminates) and the state stays
clean. -/

set_option maxHeartbeats 2000000

mutual
theorem foldExpr_clean : ∀ (s : St) (e : Expr), badE e = 0 → decVDs s.initVars = 0 →
    decE (foldExpr s e).2 = 0 ∧ decVDs (foldExpr s e).1.initVars = 0
  | s, .identE i, _, hs => ⟨by simp [foldExpr, decE], by simpa [foldExpr] using hs⟩
  | s, .lit l, _, hs => ⟨by simp [foldExpr, decE], by simpa [foldExpr] using hs⟩
  | s, .thisE, _, hs => ⟨by simp [foldExpr, decE], by simpa [foldExpr] using hs⟩
  | s, .assign lhs r, hb, hs => by
    have h := foldExpr_clean s r (by simpa [badE] using hb) hs
    exact ⟨by simp [foldExpr, decE, h.1], by simpa [foldExpr] using h.2⟩
  | s, .bin op l r, hb, hs => by
    have hbl : badE l = 0 := by simp [badE] at hb; omega
    have hbr : badE r = 0 := by simp [badE] at hb; omega
    have hl := foldExpr_clean s l hbl hs
    have hr := foldExpr_clean (foldExpr s l).1 r hbr hl.2
    exact ⟨by simp [foldExpr, decE, hl.1, hr.1], by simpa [foldExpr] using hr.2⟩
  | s, .cond t c a, hb, hs => by
    have hbt : badE t = 0 := by simp [badE] at hb; omega
    have hbc : badE c = 0 := by simp [badE] at hb; omega
    have hba : badE a = 0 := by simp [badE] at hb; omega
    have ht := foldExpr_clean s t hbt hs
    have hc := foldExpr_clean (foldExpr s t).1 c hbc ht.2
    have ha := foldExpr_clean (foldExpr (foldExpr s t).1 c).1 a hba hc.2
    exact ⟨by simp [foldExpr, decE, ht.1, hc.1, ha.1], by simpa [foldExpr] using ha.2⟩
  | s, .call c args, hb, hs => by
    have hbc : badCallee c = 0 := by simp [badE] at hb; omega
    have hba : badEL args = 0 := by simp [badE] at hb; omega
    have hc := foldCallee_clean s c hbc hs
    have ha := foldExprL_clean (foldCallee s c).1 args hba hc.2
    exact ⟨by simp [foldExpr, decE, hc.1, ha.1], by simpa [foldExpr] using ha.2⟩
  | s, .member o prop, hb, hs => by
    have h := foldExpr_clean s o (by simpa [badE] using hb) hs
    exact ⟨by simp [foldExpr, decE, h.1], by simpa [foldExpr] using h.2⟩
  | s, .seq es, hb, hs => by
    have h := foldExprL_clean s es (by simpa [badE] using hb) hs
    exact ⟨by simp [foldExpr, decE, h.1], by simpa [foldExpr] using h.2⟩
  | s, .array es, hb, hs => by
    have h := foldExprL_clean s es (by simpa [badE] using hb) hs
    exact ⟨by simp [foldExpr, decE, h.1], by simpa [foldExpr] using h.2⟩
  | s, .object ps, hb, hs => by
    have h := foldOPs_clean s ps (by simpa [badE] using hb) hs
    exact ⟨by simp [foldExpr, decE, h.1], by simpa [foldExpr] using h.2⟩
  | s, .fnE nm f, hb, hs => by
    have h := foldFnP_clean s f (by simpa [badE] using hb) hs
    exact ⟨by simp [foldExpr, decE, h.1], by simpa [foldExpr] using h.2⟩
  | s, .classE ident k, hb, hs => by
    have hk := foldClassK_clean s k (by simpa [badE] using hb) hs
    have hh := handle_clean2 (foldClassK s k).1 ident (foldClassK s k).2 hk.1 hk.2
    exact ⟨by simpa [foldExpr] using hh.1, by simpa [foldExpr] using hh.2⟩
  | s, .unary op e, hb, hs => by
    have h := foldExpr_clean s e (by simpa [badE] using hb) hs
    exact ⟨by simp [foldExpr, decE, h.1], by simpa [foldExpr] using h.2⟩
  | s, .spread e, hb, hs => by
    have h := foldExpr_clean s e (by simpa [badE] using hb) hs
    exact ⟨by simp [foldExpr, decE, h.1], by simpa [foldExpr] using h.2⟩

theorem foldExprL_clean : ∀ (s : St) (es : List Expr), badEL es = 0 →
    decVDs s.initVars = 0 →
    decEL (foldExprL s es).2 = 0 ∧ decVDs (foldExprL s es).1.initVars = 0
  | s, [], _, hs => ⟨by simp [foldExprL, decEL], by simpa [foldExprL] using hs⟩
  | s, e :: es, hb, hs => by
    have hbe : badE e = 0 := by simp [badEL] at hb; omega
    have hbs : badEL es = 0 := by simp [badEL] at hb; omega
    have he := foldExpr_clean s e hbe hs
    have hr := foldExprL_clean (foldExpr s e).1 es hbs he.2
    exact ⟨by simp [foldExprL, decEL, he.1, hr.1], by simpa [foldExprL] using hr.2⟩

theorem foldOptE_clean : ∀ (s : St) (oe : Option Expr), badOptE oe = 0 →
    decVDs s.initVars = 0 →
    decOptE (foldOptE s oe).2 = 0 ∧ decVDs (foldOptE s oe).1.initVars = 0
  | s, none, _, hs => ⟨by simp [foldOptE, decOptE], by simpa [foldOptE] using hs⟩
  | s, some e, hb, hs => by
    have h := foldExpr_clean s e (by simpa [badOptE] using hb) hs
    exact ⟨by simp [foldOptE, decOptE, h.1], by simpa [foldOptE] using h.2⟩

theorem foldCallee_clean : ∀ (s : St) (c : Callee), badCallee c = 0 →
    decVDs s.initVars = 0 →
    decCallee (foldCallee s c).2 = 0 ∧ decVDs (foldCallee s c).1.initVars = 0
  | s, .cexpr e, hb, hs => by
    have h := foldExpr_clean s e (by simpa [badCallee] using hb) hs
    exact ⟨by simp [foldCallee, decCallee, h.1], by simpa [foldCallee] using h.2⟩
  | s, .csuper, _, hs =>
    ⟨by simp [foldCallee, decCallee], by simpa [foldCallee] using hs⟩

theorem foldOPs_clean : ∀ (s : St) (ps : List ObjProp), badOPs ps = 0 →
    decVDs s.initVars = 0 →
    decOPs (foldOPs s ps).2 = 0 ∧ decVDs (foldOPs s ps).1.initVars = 0
  | s, [], _, hs => ⟨by simp [foldOPs, decOPs], by simpa [foldOPs] using hs⟩
  | s, .kv k v :: ps, hb, hs => by
    have hbv : badE v = 0 := by simp [badOPs] at hb; omega
    have hbp : badOPs ps = 0 := by simp [badOPs] at hb; omega
    have hv := foldExpr_clean s v hbv hs
    have hr := foldOPs_clean (foldExpr s v).1 ps hbp hv.2
    exact ⟨by simp [foldOPs, decOPs, hv.1, hr.1], by simpa [foldOPs] using hr.2⟩

theorem foldFnM_clean : ∀ (s : St) (f : Fn), badFnMethod f = 0 →
    decVDs s.initVars = 0 →
    pendFn (foldFn s f).2 = 0 ∧ decVDs (foldFn s f).1.initVars = 0
  | s, .mk params decs body, hb, hs => by
    have hbp : badParamsSoft params = 0 := by simp [badFnMethod] at hb; omega
    have hbd : badEL decs = 0 := by simp [badFnMethod] at hb; omega
    have hbb : badOBody body = 0 := by simp [badFnMethod] at hb; omega
    have hp := foldParamsS_clean s params hbp hs
    have hd := foldExprL_clean (foldParams s params).1 decs hbd hp.2
    have hbod := foldOBody_clean (foldExprL (foldParams s params).1 decs).1 body hbb hd.2
    exact ⟨by simp [foldFn, pendFn, hp.1, hd.1, hbod.1],
      by simpa [foldFn] using hbod.2⟩

theorem foldFnP_clean : ∀ (s : St) (f : Fn), badFnPlain f = 0 →
    decVDs s.initVars = 0 →
    decFn (foldFn s f).2 = 0 ∧ decVDs (foldFn s f).1.initVars = 0
  | s, .mk params decs body, hb, hs => by
    have hbp : badParamsHard params = 0 := by simp [badFnPlain] at hb; omega
    have hbd : badDecsHard decs = 0 := by simp [badFnPlain] at hb; omega
    have hbb : badOBody body = 0 := by simp [badFnPlain] at hb; omega
    have hdnil : decs = [] := badDecsHard_nil decs hbd
    subst hdnil
    have hp := foldParamsH_clean s params hbp hs
    have hbod := foldOBody_clean (foldParams s params).1 body hbb hp.2
    exact ⟨by simp [foldFn, decFn, foldExprL, decDecs, hp.1, hbod.1],
      by simpa [foldFn, foldExprL] using hbod.2⟩

theorem foldParamsS_clean : ∀ (s : St) (ps : List Param), badParamsSoft ps = 0 →
    decVDs s.initVars = 0 →
    pendParams (foldParams s ps).2 = 0 ∧ decVDs (foldParams s ps).1.initVars = 0
  | s, [], _, hs => ⟨by simp [foldParams, pendParams], by simpa [foldParams] using hs⟩
  | s, .mk ds pat :: ps, hb, hs => by
    have hbd : badEL ds = 0 := by simp [badParamsSoft] at hb; omega
    have hbp : badParamsSoft ps = 0 := by simp [badParamsSoft] at hb; omega
    have hd := foldExprL_clean s ds hbd hs
    have hr := foldParamsS_clean (foldExprL s ds).1 ps hbp hd.2
    exact ⟨by simp [foldParams, pendParams, Param.decorators, hd.1, hr.1],
      by simpa [foldParams] using hr.2⟩

theorem foldParamsH_clean : ∀ (s : St) (ps : List Param), badParamsHard ps = 0 →
    decVDs s.initVars = 0 →
    decParams (foldParams s ps).2 = 0 ∧ decVDs (foldParams s ps).1.initVars = 0
  | s, [], _, hs => ⟨by simp [foldParams, decParams], by simpa [foldParams] using hs⟩
  | s, .mk ds pat :: ps, hb, hs => by
    have hbd : badDecsHard ds = 0 := by simp [badParamsHard] at hb; omega
    have hbp : badParamsHard ps = 0 := by simp [badParamsHard] at hb; omega
    have hdnil : ds = [] := badDecsHard_nil ds hbd
    subst hdnil
    have hr := foldParamsH_clean s ps hbp hs
    exact ⟨by simp [foldParams, decParams, foldExprL, decDecs, hr.1],
      by simpa [foldParams, foldExprL] using hr.2⟩

theorem foldOBody_clean : ∀ (s : St) (b : Option (List Stmt)), badOBody b = 0 →
    decVDs s.initVars = 0 →
    decOBody (foldOBody s b).2 = 0 ∧ decVDs (foldOBody s b).1.initVars = 0
  | s, none, _, hs => ⟨by simp [foldOBody, decOBody], by simpa [foldOBody] using hs⟩
  | s, some ss, hb, hs => by
    by_cases hgd : containsDecSL ss = true
    · have h := foldStmtsCore_clean s ss (by simpa [badOBody] using hb) hs
      exact ⟨by simp [foldOBody, hgd, decOBody, h.1], by simpa [foldOBody, hgd] using h.2⟩
    · have hz : decSL ss = 0 := by
        simp [containsDecSL] at hgd; omega
      exact ⟨by simp [foldOBody, hgd, decOBody, hz], by simpa [foldOBody, hgd] using hs⟩

theorem foldPropName_clean : ∀ (s : St) (k : PropName), badPropName k = 0 →
    decVDs s.initVars = 0 →
    decPropName (foldPropName s k).2 = 0 ∧ decVDs (foldPropName s k).1.initVars = 0
  | s, .computed e, hb, hs => by
    have h := foldExpr_clean s e (by simpa [badPropName] using hb) hs
    exact ⟨by simp [foldPropName, decPropName, h.1], by simpa [foldPropName] using h.2⟩
  | s, .idKey x, _, hs =>
    ⟨by simp [foldPropName, decPropName], by simpa [foldPropName] using hs⟩
  | s, .strKey x, _, hs =>
    ⟨by simp [foldPropName, decPropName], by simpa [foldPropName] using hs⟩
  | s, .numKey x, _, hs =>
    ⟨by simp [foldPropName, decPropName], by simpa [foldPropName] using hs⟩

theorem foldMember_clean : ∀ (s : St) (m : ClassMember), badMember m = 0 →
    decVDs s.initVars = 0 →
    pendMember (foldMember s m).2 = 0 ∧ decVDs (foldMember s m).1.initVars = 0
  | s, .ctorM params body, hb, hs => by
    have hbp : badParamsHard params = 0 := by simp [badMember] at hb; omega
    have hbb : badOBody body = 0 := by simp [badMember] at hb; omega
    have hp := foldParamsH_clean s params hbp hs
    have hbod := foldOBody_clean (foldParams s params).1 body hbb hp.2
    exact ⟨by simp [foldMember, pendMember, hp.1, hbod.1],
      by simpa [foldMember] using hbod.2⟩
  | s, .method key st f, hb, hs => by
    have hbk : badPropName key = 0 := by simp [badMember] at hb; omega
    have hbf : badFnMethod f = 0 := by simp [badMember] at hb; omega
    have hk := foldPropName_clean s key hbk hs
    have hf := foldFnM_clean (foldPropName s key).1 f hbf hk.2
    exact ⟨by simp [foldMember, pendMember, hk.1, hf.1],
      by simpa [foldMember] using hf.2⟩
  | s, .propM key st ds v, hb, hs => by
    have hbk : badPropName key = 0 := by simp [badMember] at hb; omega
    have hbd : badEL ds = 0 := by simp [badMember] at hb; omega
    have hbv : badOptE v = 0 := by simp [badMember] at hb; omega
    have hk := foldPropName_clean s key hbk hs
    have hv := foldOptE_clean (foldPropName s key).1 v hbv hk.2
    have hd := foldExprL_clean (foldOptE (foldPropName s key).1 v).1 ds hbd hv.2
    exact ⟨by simp [foldMember, pendMember, hk.1, hv.1, hd.1],
      by simpa [foldMember] using hd.2⟩
  | s, .privateMethod nm st f, hb, hs => by
    have hf := foldFnP_clean s f (by simpa [badMember] using hb) hs
    exact ⟨by simp [foldMember, pendMember, hf.1], by simpa [foldMember] using hf.2⟩
  | s, .privateProp nm st ds v, hb, hs => by
    have hbd : badDecsHard ds = 0 := by simp [badMember] at hb; omega
    have hbv : badOptE v = 0 := by simp [badMember] at hb; omega
    have hdnil : ds = [] := badDecsHard_nil ds hbd
    subst hdnil
    have hv := foldOptE_clean s v hbv hs
    exact ⟨by simp [foldMember, pendMember, foldExprL, decDecs, hv.1],
      by simpa [foldMember, foldExprL] using hv.2⟩
  | s, .emptyM, _, hs =>
    ⟨by simp [foldMember, pendMember], by simpa [foldMember] using hs⟩

theorem foldMembers_clean : ∀ (s : St) (ms : List ClassMember), badMembers ms = 0 →
    decVDs s.initVars = 0 →
    pendMembers (foldMembers s ms).2 = 0 ∧ decVDs (foldMembers s ms).1.initVars = 0
  | s, [], _, hs => ⟨by simp [foldMembers, pendMembers], by simpa [foldMembers] using hs⟩
  | s, m :: ms, hb, hs => by
    have hbm : badMember m = 0 := by simp [badMembers] at hb; omega
    have hbs : badMembers ms = 0 := by simp [badMembers] at hb; omega
    have hm := foldMember_clean s m hbm hs
    have hr := foldMembers_clean (foldMember s m).1 ms hbs hm.2
    exact ⟨by simp [foldMembers, pendMembers, hm.1, hr.1],
      by simpa [foldMembers] using hr.2⟩

theorem foldClassK_clean : ∀ (s : St) (k : ClassK), badClassK k = 0 →
    decVDs s.initVars = 0 →
    pendClassK (foldClassK s k).2 = 0 ∧ decVDs (foldClassK s k).1.initVars = 0
  | s, .mk decs body sup, hb, hs => by
    have hbd : badEL decs = 0 := by simp [badClassK] at hb; omega
    have hbb : badMembers body = 0 := by simp [badClassK] at hb; omega
    have hbs : badOptE sup = 0 := by simp [badClassK] at hb; omega
    have hd := foldExprL_clean s decs hbd hs
    have hm := foldMembers_clean (foldExprL s decs).1 body hbb hd.2
    have hsup := foldOptE_clean (foldMembers (foldExprL s decs).1 body).1 sup hbs hm.2
    exact ⟨by simp [foldClassK, pendClassK, hd.1, hm.1, hsup.1],
      by simpa [foldClassK] using hsup.2⟩

theorem foldStmt_clean : ∀ (s : St) (st : Stmt), badStmt st = 0 →
    decVDs s.initVars = 0 →
    decStmt (foldStmt s st).2 = 0 ∧ decVDs (foldStmt s st).1.initVars = 0
  | s, .exprS e, hb, hs => by
    have h := foldExpr_clean s e (by simpa [badStmt] using hb) hs
    exact ⟨by simp [foldStmt, decStmt, h.1], by simpa [foldStmt] using h.2⟩
  | s, .declS d, hb, hs => by
    have h := foldDecl_clean s d (by simpa [badStmt] using hb) hs
    exact ⟨by simp [foldStmt, decStmt, h.1], by simpa [foldStmt] using h.2⟩
  | s, .ret e, hb, hs => by
    have h := foldOptE_clean s e (by simpa [badStmt] using hb) hs
    exact ⟨by simp [foldStmt, decStmt, h.1], by simpa [foldStmt] using h.2⟩
  | s, .block ss, hb, hs => by
    by_cases hgd : containsDecSL ss = true
    · have h := foldStmtsCore_clean s ss (by simpa [badStmt] using hb) hs
      exact ⟨by simp [foldStmt, hgd, decStmt, h.1], by simpa [foldStmt, hgd] using h.2⟩
    · have hz : decSL ss = 0 := by simp [containsDecSL] at hgd; omega
      exact ⟨by simp [foldStmt, hgd, decStmt, hz], by simpa [foldStmt, hgd] using hs⟩
  | s, .emptyS, _, hs => ⟨by simp [foldStmt, decStmt], by simpa [foldStmt] using hs⟩

theorem foldDecl_clean : ∀ (s : St) (d : Decl), badDecl d = 0 →
    decVDs s.initVars = 0 →
    decDecl (foldDecl s d).2 = 0 ∧ decVDs (foldDecl s d).1.initVars = 0
  | s, .classD ident k, hb, hs => by
    have hk := foldClassK_clean s k (by simpa [badDecl] using hb) hs
    have hh := handle_clean2 (foldClassK s k).1 (some ident) (foldClassK s k).2 hk.1 hk.2
    exact ⟨by simp [foldDecl, decDecl, decVDs, decOptE, hh.1],
      by simpa [foldDecl] using hh.2⟩
  | s, .varD kind ds, hb, hs => by
    have h := foldVDs_clean s ds (by simpa [badDecl] using hb) hs
    exact ⟨by simp [foldDecl, decDecl, h.1], by simpa [foldDecl] using h.2⟩
  | s, .fnD ident f, hb, hs => by
    have h := foldFnP_clean s f (by simpa [badDecl] using hb) hs
    exact ⟨by simp [foldDecl, decDecl, h.1], by simpa [foldDecl] using h.2⟩

theorem foldVDs_clean : ∀ (s : St) (ds : List VarDeclarator), badVDs ds = 0 →
    decVDs s.initVars = 0 →
    decVDs (foldVDs s ds).2 = 0 ∧ decVDs (foldVDs s ds).1.initVars = 0
  | s, [], _, hs => ⟨by simp [foldVDs, decVDs], by simpa [foldVDs] using hs⟩
  | s, .mk nm i :: ds, hb, hs => by
    have hbi : badOptE i = 0 := by simp [badVDs] at hb; omega
    have hbd : badVDs ds = 0 := by simp [badVDs] at hb; omega
    have hi := foldOptE_clean s i hbi hs
    have hr := foldVDs_clean (foldOptE s i).1 ds hbd hi.2
    exact ⟨by simp [foldVDs, decVDs, hi.1, hr.1], by simpa [foldVDs] using hr.2⟩

theorem foldStmtsCore_clean : ∀ (s : St) (ss : List Stmt), badSL ss = 0 →
    decVDs s.initVars = 0 →
    decSL (foldStmtsCore s ss).2 = 0 ∧ decVDs (foldStmtsCore s ss).1.initVars = 0
  | s, [], _, hs => ⟨by simp [foldStmtsCore, decSL], by simpa [foldStmtsCore] using hs⟩
  | s, st :: rest, hb, hs => by
    have hbst : badStmt st = 0 := by simp [badSL] at hb; omega
    have hbr : badSL rest = 0 := by simp [badSL] at hb; omega
    by_cases hc : containsDecStmt st = true
    · have hst := foldStmt_clean s st hbst hs
      by_cases hiv : (foldStmt s st).1.initVars.isEmpty = true
      · have hr := foldStmtsCore_clean (foldStmt s st).1 rest hbr hst.2
        exact ⟨by simp [foldStmtsCore, hc, hiv, decSL, hst.1, hr.1],
          by simpa [foldStmtsCore, hc, hiv] using hr.2⟩
      · have hr := foldStmtsCore_clean { (foldStmt s st).1 with initVars := [] } rest
          hbr (by simp [decVDs])
        exact ⟨by simp [foldStmtsCore, hc, hiv, decSL, decStmt, decDecl, hst.1,
            hst.2, hr.1],
          by simpa [foldStmtsCore, hc, hiv] using hr.2⟩
    · have hz : decStmt st = 0 := by simp [containsDecStmt] at hc; omega
      have hr := foldStmtsCore_clean s rest hbr hs
      exact ⟨by simp [foldStmtsCore, hc, decSL, hz, hr.1],
        by simpa [foldStmtsCore, hc] using hr.2⟩
end

theorem decItems_append :
    ∀ a b : List ModuleItem, decItems (a ++ b) = decItems a + decItems b
  | [], b => by simp [decItems]
  | it :: a, b => by simp [decItems, decItems_append a b]; omega

theorem foldModuleItem_clean (s : St) (it : ModuleItem) (hb : badItem it = 0)
    (hs : decVDs s.initVars = 0) :
    decItem (foldModuleItem s it).2 = 0 ∧
    decVDs (foldModuleItem s it).1.initVars = 0 := by
  cases it with
  | stmt st =>
    have h := foldStmt_clean s st (by simpa [badItem] using hb) hs
    exact ⟨by simp [foldModuleItem, decItem, h.1], by simpa [foldModuleItem] using h.2⟩
  | exportDefaultClass ident k =>
    have hk := foldClassK_clean s k (by simpa [badItem] using hb) hs
    cases ident with
    | some i =>
      have hh := handle_clean2 (foldClassK s k).1 (some i) (foldClassK s k).2 hk.1 hk.2
      exact ⟨by simp [foldModuleItem, decItem, decStmt, decDecl, decVDs, decOptE, hh.1],
        by simpa [foldModuleItem] using hh.2⟩
    | none =>
      have hh := handle_clean2 (freshIdent (foldClassK s k).1 "_class").1 none
        (foldClassK s k).2 hk.1 (by simpa [freshIdent] using hk.2)
      exact ⟨by simp [foldModuleItem, decItem, decStmt, decDecl, decVDs, decOptE, hh.1],
        by simpa [foldModuleItem] using hh.2⟩
  | exportNamed sp =>
    exact ⟨by simp [foldModuleItem, decItem], by simpa [foldModuleItem] using hs⟩

theorem foldItemsCore_clean :
    ∀ (s : St) (its : List ModuleItem), badItems its = 0 → decVDs s.initVars = 0 →
      decItems (foldItemsCore s its).2 = 0 ∧
      decVDs (foldItemsCore s its).1.initVars = 0
  | s, [], _, hs => ⟨by simp [foldItemsCore, decItems], by simpa [foldItemsCore] using hs⟩
  | s, it :: rest, hb, hs => by
    have hbit : badItem it = 0 := by simp [badItems] at hb; omega
    have hbr : badItems rest = 0 := by simp [badItems] at hb; omega
    by_cases hc : containsDecItem it = true
    · have hit := foldModuleItem_clean s it hbit hs
      by_cases hiv : (foldModuleItem s it).1.initVars.isEmpty = true
      · have hr := foldItemsCore_clean (foldModuleItem s it).1 rest hbr hit.2
        exact ⟨by simp [foldItemsCore, hc, hiv, decItems, hit.1, hr.1],
          by simpa [foldItemsCore, hc, hiv] using hr.2⟩
      · have hr := foldItemsCore_clean { (foldModuleItem s it).1 with initVars := [] }
          rest hbr (by simp [decVDs])
        have hvd : decItem
            (.stmt (.declS (.varD .varK (foldModuleItem s it).1.initVars))) = 0 := by
          simp [decItem, decStmt, decDecl, hit.2]
        exact ⟨by simp [foldItemsCore, hc, hiv, decItems, hvd, hit.1, hr.1],
          by simpa [foldItemsCore, hc, hiv] using hr.2⟩
    · have hz : decItem it = 0 := by simp [containsDecItem] at hc; omega
      have hr := foldItemsCore_clean s rest hbr hs
      exact ⟨by simp [foldItemsCore, hc, decItems, hz, hr.1],
        by simpa [foldItemsCore, hc] using hr.2⟩

theorem foldItems_clean (s : St) (its : List ModuleItem) (hb : badItems its = 0)
    (hs : decVDs s.initVars = 0) :
    decItems (foldItems s its).2 = 0 ∧ decVDs (foldItems s its).1.initVars = 0 := by
  by_cases hc : containsDecItems its = true
  · have h := foldItemsCore_clean s its hb hs
    exact ⟨by simpa [foldItems, hc] using h.1, by simpa [foldItems, hc] using h.2⟩
  · have hz : decItems its = 0 := by simp [containsDecItems] at hc; omega
    exact ⟨by simpa [foldItems, hc] using hz, by simpa [foldItems, hc] using hs⟩

theorem foldModule_clean (s : St) (m : Module) (hb : badModule m = 0)
    (hs : decVDs s.initVars = 0) : decModule (foldModule s m).2 = 0 := by
  have h := foldItems_clean s m.body hb hs
  by_cases hu : (foldItems s m.body).1.uninitVars.isEmpty = true <;>
    by_cases he : (foldItems s m.body).1.exports.isEmpty = true <;>
    simp [foldModule, hu, he, decModule, decItems, decItems_append, decItem,
      decStmt, decDecl, decVDs_uninitToVDs, h.1]

/-- Running the pass on a module whose subtree contains decorators only in
the positions the pass strips produces a module with no decorators at all. -/
theorem passModule_clean (m : Module) (hb : badModule m = 0) :
    decModule (passModule m) = 0 :=
  foldModule_clean st0 m hb (by simp [st0, decVDs])

/-- On a decorator-free module the fold (run from the initial state) is the
identity: the whole-list presence check short-circuits and nothing is
prepended or appended. -/
theorem foldModule_id (m : Module) (hz : decModule m = 0) :
    foldModule st0 m = (st0, m) := by
  have hc : containsDecItems m.body = false := by
    simp [containsDecItems, decModule] at hz ⊢; omega
  cases m with
  | mk body =>
    simp [foldModule, foldItems, hc, st0]

/-- On a decorator-free script the fold is likewise the identity. -/
theorem foldScript_id (sc : Script) (hz : decSL sc.body = 0) :
    foldScript st0 sc = (st0, sc) := by
  have hc : containsDecSL sc.body = false := by
    simp [containsDecSL] at hz ⊢; omega
  cases sc with
  | mk body =>
    simp [foldScript, foldStmts, hc, st0]

/-- Structural idempotence on well-placed inputs: the first run leaves no
decorators, so the second run is the identity. -/
theorem passModule_idem (m : Module) (hb : badModule m = 0) :
    passModule (passModule m) = passModule m := by
  have h := passModule_clean m hb
  simpa [passModule] using congrArg Prod.snd (foldModule_id (passModule m) h)

/-! ## Concrete inputs used by counterexamples and witnesses -/

/-- A module declaring `class A { constructor(@d p) {} }`: its only decorator
sits on a constructor parameter, a position the member loop of
`Legacy::handle` never strips (the `_ => Some(m)` fall-through at mod.rs
line 712). -/
def mCtorParam : Module :=
  ⟨[.stmt (.declS (.classD ⟨"A", 0⟩
    (.mk [] [.ctorM [.mk [.identE ⟨"d", 0⟩] (.id ⟨"p", 0⟩)] (some [])] none)))]⟩

/-- A module declaring `class A { @d m() {} }`: one decorated method, a
position the pass strips. -/
def mMethodDec : Module :=
  ⟨[.stmt (.declS (.classD ⟨"A", 0⟩
    (.mk [] [.method (.idKey "m") false (.mk [] [.identE ⟨"d", 0⟩] (some []))] none)))]⟩

/-- The class `@dc class { @pd p = 1 }`: one class-level decorator plus one
decorated instance property, so both member extra-expressions and
class-decorator wrapping are produced. -/
def kC3 : ClassK :=
  .mk [.identE ⟨"dc", 0⟩]
    [.propM (.idKey "p") false [.identE ⟨"pd", 0⟩] (some (.lit (.num 1)))] none

/-- The same class without the class-level decorator. -/
def kC3n : ClassK :=
  .mk []
    [.propM (.idKey "p") false [.identE ⟨"pd", 0⟩] (some (.lit (.num 1)))] none

/-- A script declaring `@d class A {}`. -/
def scC7 : Script :=
  ⟨[.declS (.classD ⟨"A", 0⟩ (.mk [.identE ⟨"d", 0⟩] [] none))]⟩

/-- Recognizer for a sequence expression. -/
def isSeqE : Expr → Bool
  | .seq _ => true
  | _ => false

/-- Recognizer for a `var` declaration statement all of whose declarators
are uninitialized (the hoisted-temporaries declaration). -/
def isUninitVarDeclStmt : Stmt → Bool
  | .declS (.varD .varK ds) =>
    ds.all fun vd => match vd with
      | .mk _ none => true
      | .mk _ (some _) => false
  | _ => false

/-! ## The claims -/

/-- C1 (counterexample): the global post-condition fails as stated — for the
module `class A { constructor(@d p) {} }` a full scan of the pass output
still finds a decorator, because the member loop of `Legacy::handle` leaves
constructor members (and private members) untouched. -/
theorem claim_C1_counterexample : decModule (passModule mCtorParam) ≠ 0 := by decide

/-- C1 (amended): for every input module whose decorators all sit in
positions the pass strips — class-level decorator lists, non-private method
function-level and parameter decorators, and non-private class property
decorators (`badModule m = 0`) — the output AST of the lowering pass carries
no non-empty decorator list anywhere, checkable by the full re-traversal
`decModule`. -/
theorem claim_C1 : ∀ m : Module, badModule m = 0 → decModule (passModule m) = 0 :=
  fun m h => passModule_clean m h

/-- C1 (witness): the amended theorem applied to the decorated-method module. -/
theorem claim_C1_witness :
    badModule mMethodDec = 0 ∧ decModule (passModule mMethodDec) = 0 :=
  ⟨by decide, claim_C1 mMethodDec (by decide)⟩

/-- C2: `Legacy::apply` processes the class-level decorators from
last-declared to first-declared: applying to `ds ++ [d]` first performs the
step for `d` (resolving it via `alias_if_required` and wrapping the current
expression as `classBinding = decRef(current) || classBinding`, the `||`
providing the fallback to the previous binding when the decorator returns a
falsy value) and then recurses on `ds`, so the decorator written last /
nearest the class is innermost and is applied to the class value first at
runtime; the empty decorator list leaves the expression untouched. -/
theorem claim_C2 (s : St) (cls : Ident) (e : Expr) (ds : List Expr) (d : Expr) :
    applyDecs cls s e (ds ++ [d]) =
      applyDecs cls (applyStep cls (s, e) d).1 (applyStep cls (s, e) d).2 ds ∧
    (applyStep cls (s, e) d).2 =
      .assign cls (.bin "||"
        (.call (.cexpr (.identE (aliasIfRequired s d "_dec").2.1)) [e])
        (.identE cls)) ∧
    applyDecs cls s e [] = (s, e) := by
  refine ⟨?_, ?_, rfl⟩
  · simp [applyDecs, List.reverse_append]
  · cases d <;> simp [applyStep, aliasIfRequired]

/-- C8: for every statement list and module-item list whose whole subtree
contains no decorator, `fold_stmt_like` returns the list structurally
unchanged and the state untouched — no temporaries, no export rewiring. -/
theorem claim_C8 (s : St) (stmts : List Stmt) (items : List ModuleItem) :
    (decSL stmts = 0 → foldStmts s stmts = (s, stmts)) ∧
    (decItems items = 0 → foldItems s items = (s, items)) := by
  constructor
  · intro h
    have hc : containsDecSL stmts = false := by simp [containsDecSL]; omega
    simp [foldStmts, hc]
  · intro h
    have hc : containsDecItems items = false := by simp [containsDecItems]; omega
    simp [foldItems, hc]

/-- C8 (witness): the fast path applied to a concrete decorator-free list. -/
theorem claim_C8_witness :
    decSL [Stmt.exprS (.lit (.num 1))] = 0 ∧
    foldStmts st0 [Stmt.exprS (.lit (.num 1))] = (st0, [Stmt.exprS (.lit (.num 1))]) :=
  ⟨by decide, (claim_C8 st0 [Stmt.exprS (.lit (.num 1))] []).1 (by decide)⟩

/-- C9 (counterexample): the pass is not structurally idempotent on all
inputs — on `class A { constructor(@d p) {} }` the first run leaves the
parameter decorator in place, so the second run rewraps the class and
produces a different module (one extra hoisted-temporaries statement). -/
theorem claim_C9_counterexample :
    passModule (passModule mCtorParam) ≠ passModule mCtorParam := by
  intro h
  exact absurd (congrArg (fun m => m.body.length) h) (by decide)

/-- C9 (amended): on any decorator-free module the pass is the identity (a
no-op, not an error); consequently, for modules whose decorators sit only in
positions the pass strips, running the pass a second time on its own output
returns it unchanged. -/
theorem claim_C9 :
    (∀ m : Module, decModule m = 0 → passModule m = m) ∧
    (∀ m : Module, badModule m = 0 → passModule (passModule m) = passModule m) := by
  constructor
  · intro m h
    simpa [passModule] using congrArg Prod.snd (foldModule_id m h)
  · exact fun m h => passModule_idem m h

/-- C9 (witness): the amended theorem applied to the decorated-method module. -/
theorem claim_C9_witness :
    badModule mMethodDec = 0 ∧
    passModule (passModule mMethodDec) = passModule mMethodDec :=
  ⟨by decide, claim_C9.2 mMethodDec (by decide)⟩

/-- Characterization of the constructor-injection position search: when
`findIdx?` reports index `p`, then `p` is in bounds, the statement at `p` is
a top-level `super(...)` call expression statement, and no earlier statement
is. -/
theorem findIdx_super_spec :
    ∀ (l : List Stmt) (p : Nat), l.findIdx? isSuperCallStmt = some p →
      p < l.length ∧ isSuperCallStmt (l.getD p .emptyS) = true ∧
      ∀ j, j < p → isSuperCallStmt (l.getD j .emptyS) = false
  | [], p, h => by simp [List.findIdx?] at h
  | x :: xs, p, h => by
    rw [List.findIdx?_cons, List.findIdx?_succ] at h
    by_cases hx : isSuperCallStmt x = true
    · simp [hx] at h
      subst h
      exact ⟨by simp, by simpa using hx, fun j hj => absurd hj (by omega)⟩
    · simp [hx] at h
      obtain ⟨q, hq, rfl⟩ := h
      obtain ⟨h1, h2, h3⟩ := findIdx_super_spec xs q hq
      refine ⟨by simp; omega, by simpa using h2, ?_⟩
      intro j hj
      cases j with
      | zero => simpa using hx
      | succ j2 =>
        have := h3 j2 (by omega)
        simpa using this

/-- C4: constructor synthesis and injection.  (i) When the class body has no
constructor member, `injectCtorStmts` first appends the synthesized default
constructor and then injects into it.  (ii) The synthesized default
constructor forwards all arguments to `super(...)` via a rest parameter when
a superclass is declared and is empty otherwise.  (iii) Injection rewrites
the first constructor of the body, giving it an empty body when it has none.
(iv) When no top-level `super(...)` call statement exists — even when a
superclass is declared, this is not an error — the injection statements are
spliced at index 0, before all existing statements, preserving their
relative order.  (v) When the search finds the first `super(...)` call at
index `p`, the injection statements are spliced at index `p + 1`,
immediately after it. -/
theorem claim_C4 :
    (∀ (inj : List Stmt) (hasSuper : Bool) (body : List ClassMember),
      body.any isCtorMember = false →
      injectCtorStmts inj hasSuper body =
        injectIntoFirstCtor inj (body ++ [defaultCtor hasSuper])) ∧
    (defaultCtor true = .ctorM [.mk [] (.restId ⟨"args", 0⟩)]
        (some [.exprS (.call .csuper [.spread (.identE ⟨"args", 0⟩)])]) ∧
     defaultCtor false = .ctorM [] (some [])) ∧
    (∀ (inj : List Stmt) (params : List Param) (cbody : Option (List Stmt))
        (ms : List ClassMember),
      injectIntoFirstCtor inj (.ctorM params cbody :: ms) =
        .ctorM params (some (spliceCtorStmts inj (cbody.getD []))) :: ms) ∧
    (∀ (inj stmts : List Stmt), (∀ st ∈ stmts, isSuperCallStmt st = false) →
      spliceCtorStmts inj stmts = inj ++ stmts) ∧
    (∀ (inj stmts : List Stmt) (p : Nat),
      stmts.findIdx? isSuperCallStmt = some p →
      spliceCtorStmts inj stmts = stmts.take (p + 1) ++ inj ++ stmts.drop (p + 1) ∧
      p < stmts.length ∧ isSuperCallStmt (stmts.getD p .emptyS) = true ∧
      ∀ j, j < p → isSuperCallStmt (stmts.getD j .emptyS) = false) := by
  refine ⟨?_, ⟨rfl, rfl⟩, ?_, ?_, ?_⟩
  · intro inj hasSuper body h
    simp [injectCtorStmts, h]
  · intro inj params cbody ms
    simp [injectIntoFirstCtor]
  · intro inj stmts h
    have hn : stmts.findIdx? isSuperCallStmt = none :=
      List.findIdx?_eq_none_iff.mpr h
    simp [spliceCtorStmts, superInsertPos, hn]
  · intro inj stmts p h
    refine ⟨by simp [spliceCtorStmts, superInsertPos, h], findIdx_super_spec stmts p h⟩

/-- C4 (witness): injection applied to a class body without a constructor,
and the splice applied to a constructor body whose first `super(...)` call
sits at index 1. -/
theorem claim_C4_witness :
    ([ClassMember.method (.idKey "m") false (.mk [] [] (some []))].any isCtorMember
        = false ∧
      injectCtorStmts [Stmt.emptyS] true
          [ClassMember.method (.idKey "m") false (.mk [] [] (some []))] =
        injectIntoFirstCtor [Stmt.emptyS]
          ([ClassMember.method (.idKey "m") false (.mk [] [] (some []))] ++
            [defaultCtor true])) ∧
    ([Stmt.exprS (.lit (.num 0)), Stmt.exprS (.call .csuper []),
        Stmt.emptyS].findIdx? isSuperCallStmt = some 1 ∧
      spliceCtorStmts [Stmt.emptyS]
          [Stmt.exprS (.lit (.num 0)), Stmt.exprS (.call .csuper []), Stmt.emptyS] =
        [Stmt.exprS (.lit (.num 0)), Stmt.exprS (.call .csuper []),
          Stmt.emptyS].take 2 ++ [Stmt.emptyS] ++
        [Stmt.exprS (.lit (.num 0)), Stmt.exprS (.call .csuper []),
          Stmt.emptyS].drop 2) :=
  ⟨⟨by decide, claim_C4.1 [Stmt.emptyS] true _ (by decide)⟩,
   ⟨by decide, (claim_C4.2.2.2.2 [Stmt.emptyS] _ 1 (by decide)).1⟩⟩

/-- C7 (counterexample): the hoisted uninitialized-temporaries declaration is
prepended at script scope too, not at module scope only: running the pass on
the script `@d class A {}` produces a body whose first statement is the
uninitialized `var` declaration (the input script starts with no such
statement and does contain a decorator). -/
theorem claim_C7_counterexample :
    isUninitVarDeclStmt ((passScript scC7).body.getD 0 .emptyS) = true ∧
    (passScript scC7).body.length = 2 ∧
    isUninitVarDeclStmt (scC7.body.getD 0 .emptyS) = false ∧
    decSL scC7.body ≠ 0 := by decide

/-- C7 (amended): (i) in a statement list, immediately after folding a
decorated statement that accumulated initialized temporaries,
`fold_stmt_like` emits them as one variable-declaration statement directly
before the folded statement and clears the accumulator for the rest of the
fold; (ii) in a module-item list, the same splice happens: the accumulated
initialized temporaries become one variable-declaration statement item
placed directly before the folded item (`T::from_stmt` wrapping), with the
accumulator cleared; (iii) at the top level of a module, the uninitialized
temporaries are prepended once as a single declaration at the very top of
the body and the pending exports are appended once as a single export
statement at the very end, both accumulators ending empty; (iv) the same
uninitialized-temporaries prepend also happens at the top level of a script
(not only at module scope); scripts have no exports. -/
theorem claim_C7 :
    (∀ (s : St) (st : Stmt) (rest : List Stmt), containsDecStmt st = true →
      (foldStmt s st).1.initVars.isEmpty = false →
      foldStmtsCore s (st :: rest) =
        ((foldStmtsCore { (foldStmt s st).1 with initVars := [] } rest).1,
         .declS (.varD .varK (foldStmt s st).1.initVars) :: (foldStmt s st).2 ::
           (foldStmtsCore { (foldStmt s st).1 with initVars := [] } rest).2)) ∧
    (∀ (s : St) (it : ModuleItem) (rest : List ModuleItem),
      containsDecItem it = true →
      (foldModuleItem s it).1.initVars.isEmpty = false →
      foldItemsCore s (it :: rest) =
        ((foldItemsCore { (foldModuleItem s it).1 with initVars := [] } rest).1,
         .stmt (.declS (.varD .varK (foldModuleItem s it).1.initVars)) ::
           (foldModuleItem s it).2 ::
           (foldItemsCore { (foldModuleItem s it).1 with initVars := [] } rest).2)) ∧
    (∀ (s : St) (m : Module),
      (foldModule s m).2.body =
        (if (foldItems s m.body).1.uninitVars.isEmpty then []
         else [ModuleItem.stmt (.declS (.varD .varK
           (uninitToVDs (foldItems s m.body).1.uninitVars)))]) ++
        (foldItems s m.body).2 ++
        (if (foldItems s m.body).1.exports.isEmpty then []
         else [ModuleItem.exportNamed (foldItems s m.body).1.exports]) ∧
      (foldModule s m).1.uninitVars = [] ∧ (foldModule s m).1.exports = []) ∧
    (∀ (s : St) (sc : Script),
      (foldScript s sc).2.body =
        (if (foldStmts s sc.body).1.uninitVars.isEmpty then []
         else [Stmt.declS (.varD .varK
           (uninitToVDs (foldStmts s sc.body).1.uninitVars))]) ++
        (foldStmts s sc.body).2 ∧
      (foldScript s sc).1.uninitVars = []) := by
  refine ⟨?_, ?_, ?_, ?_⟩
  · intro s st rest hc hiv
    simp [foldStmtsCore, hc, hiv]
  · intro s it rest hc hiv
    simp [foldItemsCore, hc, hiv]
  · intro s m
    by_cases hu : (foldItems s m.body).1.uninitVars.isEmpty = true <;>
      by_cases he : (foldItems s m.body).1.exports.isEmpty = true <;>
      refine ⟨?_, ?_, ?_⟩ <;>
      simp_all [foldModule, List.isEmpty_iff]
  · intro s sc
    by_cases hu : (foldStmts s sc.body).1.uninitVars.isEmpty = true <;>
      refine ⟨?_, ?_⟩ <;> simp_all [foldScript, List.isEmpty_iff]

/-- A statement whose fold produces initialized temporaries: a class
declaration with one complex class-level decorator. -/
def stC7 : Stmt :=
  .declS (.classD ⟨"A", 0⟩ (.mk [.call (.cexpr (.identE ⟨"f", 0⟩)) []] [] none))

/-- C7 (witness): the splice-before clause applied on both list kinds — the
statement list and the module-item list — to a concrete decorated class
declaration whose class decorator requires a temporary. -/
theorem claim_C7_witness :
    (containsDecStmt stC7 = true ∧
     (foldStmt st0 stC7).1.initVars.isEmpty = false ∧
     foldStmtsCore st0 (stC7 :: []) =
       ((foldStmtsCore { (foldStmt st0 stC7).1 with initVars := [] } []).1,
        .declS (.varD .varK (foldStmt st0 stC7).1.initVars) :: (foldStmt st0 stC7).2 ::
          (foldStmtsCore { (foldStmt st0 stC7).1 with initVars := [] } []).2)) ∧
    (containsDecItem (.stmt stC7) = true ∧
     (foldModuleItem st0 (.stmt stC7)).1.initVars.isEmpty = false ∧
     foldItemsCore st0 (ModuleItem.stmt stC7 :: []) =
       ((foldItemsCore { (foldModuleItem st0 (.stmt stC7)).1 with initVars := [] } []).1,
        .stmt (.declS (.varD .varK (foldModuleItem st0 (.stmt stC7)).1.initVars)) ::
          (foldModuleItem st0 (.stmt stC7)).2 ::
          (foldItemsCore { (foldModuleItem st0 (.stmt stC7)).1 with
            initVars := [] } []).2)) :=
  ⟨⟨by decide, by decide, claim_C7.1 st0 stC7 [] (by decide) (by decide)⟩,
   ⟨by decide, by decide,
    claim_C7.2.1 st0 (.stmt stC7) [] (by decide) (by decide)⟩⟩

/-- Every wrapping step of `Legacy::apply` returns an assignment expression. -/
theorem applyStep_not_seq (ci : Ident) (p : St × Expr) (d : Expr) :
    isSeqE (applyStep ci p d).2 = false := rfl

/-- Folding at least one class-level decorator always leaves an assignment
(not a sequence) at the top of the replacement expression. -/
theorem applyFoldl_not_seq (ci : Ident) :
    ∀ (l : List Expr) (p : St × Expr), l ≠ [] →
      isSeqE (List.foldl (applyStep ci) p l).2 = false
  | [], _, h => absurd rfl h
  | [d], p, _ => by simpa [List.foldl] using applyStep_not_seq ci p d
  | d :: d2 :: rest, p, _ => by
    simpa [List.foldl] using
      applyFoldl_not_seq ci (d2 :: rest) (applyStep ci p d) (by simp)

/-- C3 (counterexample): the claimed shape — one top-level sequence whose
elements are the temp assignments, then the (nested) class-decorator
assignment, then the member extras, then the class reference — does not hold
when class-level decorators are present: for `@dc class { @pd p = 1 }` the
replacement expression is an assignment, not a sequence (while the same
class without `@dc` does lower to the sequence). -/
theorem claim_C3_counterexample :
    isSeqE (handle st0 none kC3).2 = false ∧
    isSeqE (handle st0 none kC3n).2 = true := by decide

/-- C3 (amended): the replacement expression built by `handle` applies the
class-level decorator wrapping to one ordered evaluation sequence whose
elements are, in this exact order: the bare
`classBinding = classExpr || classBinding` assignment, then the member-level
initializer-temp assignments (from decorated properties and computed keys),
then the member extra-expressions in member order, then a final reference to
the class binding; when that sequence has exactly one element (no member
temps and no extras) the bare assignment is used directly without a sequence
wrapper.  When class-level decorators are present the entire sequence is
nested inside the decorator assignments (so the top of the replacement is an
assignment, never a sequence); temporaries for complex class-level
decorators are recorded as separate initialized variable declarations, not
as sequence elements. -/
theorem claim_C3 (s : St) (ident : Option Ident) (kdecs : List Expr)
    (body : List ClassMember) (sup : Option Expr) :
    (handle s ident (.mk kdecs body sup) =
      (let ci := (freshIdent s "_class").2
       let s1 := { (freshIdent s "_class").1 with
                     uninitVars := (freshIdent s "_class").1.uninitVars ++ [ci] }
       let lm := lowerMembers ci ident (.member (.identE ci) "prototype")
         ⟨s1, [], [], []⟩ body
       let body2 := if lm.1.ctorStmts.isEmpty then lm.2
                    else injectCtorStmts lm.1.ctorStmts sup.isSome lm.2
       let varInit : Expr :=
         .bin "||" (.assign ci (.classE ident (.mk [] body2 sup))) (.identE ci)
       let extra := lm.1.decInits ++ lm.1.extras
       applyDecs ci lm.1.s
         (if extra.isEmpty then varInit
          else .seq (varInit :: (extra ++ [.identE ci]))) kdecs)) ∧
    (kdecs ≠ [] → isSeqE (handle s ident (.mk kdecs body sup)).2 = false) := by
  constructor
  · rfl
  · intro h
    have hr : kdecs.reverse ≠ [] := by simpa using h
    simpa [handle, applyDecs] using
      applyFoldl_not_seq (freshIdent s "_class").2 kdecs.reverse _ hr

/-- C3 (witness): the wrapped-assignment clause applied to the decorated
example class. -/
theorem claim_C3_witness :
    ([Expr.identE ⟨"dc", 0⟩] ≠ ([] : List Expr)) ∧
    isSeqE (handle st0 none (.mk [.identE ⟨"dc", 0⟩]
      [.propM (.idKey "p") false [.identE ⟨"pd", 0⟩] (some (.lit (.num 1)))]
      none)).2 = false :=
  ⟨by simp, (claim_C3 st0 none [.identE ⟨"dc", 0⟩]
    [.propM (.idKey "p") false [.identE ⟨"pd", 0⟩] (some (.lit (.num 1)))]
    none).2 (by simp)⟩

/-- C5: lowering of a decorated class property.  For an instance property
(first conjunct): a `_descriptor` temporary is hoisted uninitialized, the
extra-expression list receives `_descriptor = applyDecoratedDescriptor(
prototype, key, decoratorArray, descriptorLiteral)` — a four-argument call —
a constructor-injection statement `initializerDefineProperty(this, key,
descriptorTemp, this)` is recorded, and the member is removed from the class
body (`none`).  For a static property (second conjunct): the current value
is captured via `Object.getOwnPropertyDescriptor(classBinding, key)` into
the hoisted `_init` temporary feeding the initializer thunk,
`applyDecoratedDescriptor` is called immediately with the class binding as
first and fifth argument, and the member survives in the class body stripped
of its decorators. -/
theorem claim_C5 (ci : Ident) (cn : Option Ident) (proto : Expr) (acc : HAcc)
    (key : PropName) (decs : List Expr) (value : Option Expr)
    (hne : decs.isEmpty = false) :
    (lowerMember ci cn proto acc (.propM key false decs value) =
      (let fd := freshIdent acc.s "_descriptor"
       let s1 : St := { fd.1 with uninitVars := fd.1.uninitVars ++ [fd.2] }
       let r := resolveDecs cn ci s1 decs
       let fi := freshIdent r.1 "_init"
       ({ s := fi.1,
          decInits := acc.decInits ++ r.2.2,
          extras := acc.extras ++
            [.assign fd.2 (.call (.cexpr (.identE applyDDHelper))
              [proto, propKeyStrName key, .array r.2.1,
               descriptorLit false fi.2 value])],
          ctorStmts := acc.ctorStmts ++ [idpStmt (propKeyStrName key) fd.2] },
        none))) ∧
    (lowerMember ci cn proto acc (.propM key true decs value) =
      (let fd := freshIdent acc.s "_descriptor"
       let r := resolveDecs cn ci fd.1 decs
       let fi := freshIdent r.1 "_init"
       ({ s := { fi.1 with uninitVars := fi.1.uninitVars ++ [fi.2] },
          decInits := acc.decInits ++ r.2.2,
          extras := acc.extras ++
            [.call (.cexpr (.identE applyDDHelper))
              [.identE ci, propKeyStrName key, .array r.2.1,
               .seq [.assign fi.2 (.call (.cexpr getOwnPropDesc)
                       [.identE ci, propKeyStrName key]),
                     .assign fi.2 (.cond (.identE fi.2)
                       (.member (.identE fi.2) "value") undefinedE),
                     descriptorLit true fi.2 value],
               .identE ci]],
          ctorStmts := acc.ctorStmts },
        some (.propM key true [] value)))) := by
  constructor <;> simp [lowerMember, hne]

/-- C5 (witness): both clauses applied to a concrete decorated property. -/
theorem claim_C5_witness :
    ([Expr.identE ⟨"pd", 0⟩].isEmpty = false) ∧
    (lowerMember ⟨"_cls", 7⟩ none .thisE ⟨st0, [], [], []⟩
        (.propM (.idKey "p") false [.identE ⟨"pd", 0⟩] (some (.lit (.num 1)))) =
      (let fd := freshIdent (st0 : St) "_descriptor"
       let s1 : St := { fd.1 with uninitVars := fd.1.uninitVars ++ [fd.2] }
       let r := resolveDecs none ⟨"_cls", 7⟩ s1 [.identE ⟨"pd", 0⟩]
       let fi := freshIdent r.1 "_init"
       ({ s := fi.1,
          decInits := [] ++ r.2.2,
          extras := [] ++
            [.assign fd.2 (.call (.cexpr (.identE applyDDHelper))
              [.thisE, propKeyStrName (.idKey "p"), .array r.2.1,
               descriptorLit false fi.2 (some (.lit (.num 1)))])],
          ctorStmts := [] ++ [idpStmt (propKeyStrName (.idKey "p")) fd.2] },
        none))) :=
  ⟨by decide,
   (claim_C5 ⟨"_cls", 7⟩ none .thisE ⟨st0, [], [], []⟩ (.idKey "p")
     [.identE ⟨"pd", 0⟩] (some (.lit (.num 1))) (by decide)).1⟩

/-- The per-decorator reference produced by the resolution loop, expressed as
a standalone recursion over the decorator list: a simple (identifier)
decorator is referenced verbatim, a complex one by the next fresh `_dec`
temporary; one entry per decorator, in source order. -/
def resolveRefsSpec (c : Nat) : List Expr → List Expr
  | [] => []
  | .identE i :: ds => .identE i :: resolveRefsSpec c ds
  | _ :: ds => .identE ⟨"_dec", c + 1⟩ :: resolveRefsSpec (c + 1) ds

theorem resolveDecs_refs_spec (cn : Option Ident) (ci : Ident) :
    ∀ (s : St) (ds : List Expr),
      (resolveDecs cn ci s ds).2.1 = resolveRefsSpec s.ctr ds
  | s, [] => by simp [resolveDecs, resolveRefsSpec]
  | s, d :: ds => by
    cases d <;>
      simp [resolveDecs, aliasIfRequired, freshIdent, resolveRefsSpec,
        resolveDecs_refs_spec cn ci _ ds]

theorem lowerMethodParams_spec (t n : Expr) :
    ∀ (k : Nat) (ps : List Param),
      (lowerMethodParams t n k ps).1 =
        (ps.enumFrom k).flatMap fun q =>
          q.2.decorators.map fun d => Expr.call (.cexpr d) [t, n, .lit (.num (q.1 : Int))]
  | k, [] => by simp [lowerMethodParams, List.enumFrom]
  | k, .mk ds pat :: ps => by
    simp [lowerMethodParams, List.enumFrom, Param.decorators,
      lowerMethodParams_spec t n (k + 1) ps]

/-- C6: lowering of a decorated method (the arm fires when the function or
any parameter carries decorators).  Main equality: with `target` the class
binding for a static method and the prototype otherwise, the
extra-expression list is extended by the eager parameter-decorator calls,
then the initializing assignments of complex function-level decorators, then
exactly one call `applyDecoratedDescriptor(target, key, decoratorArray,
Object.getOwnPropertyDescriptor(target, key), target)`; the member survives
with function and parameter decorator lists emptied.  Second conjunct: the
decorator array has one entry per function-level decorator, in original
left-to-right source order, never reversed (the decorator itself when it is
a bare identifier, the fresh `_dec` temporary otherwise).  Third conjunct:
each parameter decorator produces the eager call
`decorator(target, propertyKey, parameterIndex)` with the parameter index
counted from its position. -/
theorem claim_C6 (ci : Ident) (cn : Option Ident) (proto : Expr) (acc : HAcc)
    (key : PropName) (isStatic : Bool) (params : List Param) (fdecs : List Expr)
    (body : Option (List Stmt))
    (hneed : methodNeedsLowering (.mk params fdecs body) = true) :
    (lowerMember ci cn proto acc (.method key isStatic (.mk params fdecs body)) =
      (let target : Expr := if isStatic then .identE ci else proto
       let r := resolveDecs cn ci acc.s fdecs
       let k := methodKeyName cn ci r.1 key
       let p := lowerMethodParams target k.2.1 0 params
       ({ s := k.1,
          decInits := acc.decInits ++ k.2.2,
          extras := acc.extras ++ p.1 ++ r.2.2 ++
            [.call (.cexpr (.identE applyDDHelper))
              [target, k.2.1, .array r.2.1,
               .call (.cexpr getOwnPropDesc) [target, k.2.1], target]],
          ctorStmts := acc.ctorStmts },
        some (.method key isStatic (.mk p.2 [] body))))) ∧
    (∀ (s : St) (ds : List Expr),
      (resolveDecs cn ci s ds).2.1 = resolveRefsSpec s.ctr ds) ∧
    (∀ (t n : Expr) (k0 : Nat) (ps : List Param),
      (lowerMethodParams t n k0 ps).1 =
        (ps.enumFrom k0).flatMap fun q =>
          q.2.decorators.map fun d =>
            Expr.call (.cexpr d) [t, n, .lit (.num (q.1 : Int))]) := by
  refine ⟨?_, resolveDecs_refs_spec cn ci, lowerMethodParams_spec⟩
  simp [lowerMember, hneed]

/-- C6 (witness): the method arm applied to a concrete method with one
simple decorator, one complex decorator and one decorated parameter. -/
theorem claim_C6_witness :
    methodNeedsLowering (.mk [.mk [.identE ⟨"q", 0⟩] (.id ⟨"x", 0⟩)]
        [.identE ⟨"d1", 0⟩, .call (.cexpr (.identE ⟨"d2", 0⟩)) []] (some [])) = true ∧
    (lowerMember ⟨"_cls", 7⟩ none .thisE ⟨st0, [], [], []⟩
        (.method (.idKey "m") false (.mk [.mk [.identE ⟨"q", 0⟩] (.id ⟨"x", 0⟩)]
          [.identE ⟨"d1", 0⟩, .call (.cexpr (.identE ⟨"d2", 0⟩)) []] (some []))) =
      (let target : Expr := .thisE
       let r := resolveDecs none ⟨"_cls", 7⟩ st0
         [.identE ⟨"d1", 0⟩, .call (.cexpr (.identE ⟨"d2", 0⟩)) []]
       let k := methodKeyName none ⟨"_cls", 7⟩ r.1 (.idKey "m")
       let p := lowerMethodParams target k.2.1 0 [.mk [.identE ⟨"q", 0⟩] (.id ⟨"x", 0⟩)]
       ({ s := k.1,
          decInits := [] ++ k.2.2,
          extras := [] ++ p.1 ++ r.2.2 ++
            [.call (.cexpr (.identE applyDDHelper))
              [target, k.2.1, .array r.2.1,
               .call (.cexpr getOwnPropDesc) [target, k.2.1], target]],
          ctorStmts := [] },
        some (.method (.idKey "m") false (.mk p.2 [] (some [])))))) :=
  ⟨by decide,
   (claim_C6 ⟨"_cls", 7⟩ none .thisE ⟨st0, [], [], []⟩ (.idKey "m") false
     [.mk [.identE ⟨"q", 0⟩] (.id ⟨"x", 0⟩)]
     [.identE ⟨"d1", 0⟩, .call (.cexpr (.identE ⟨"d2", 0⟩)) []] (some [])
     (by decide)).1⟩

/-- Recognizer for a bare identifier expression. -/
def isIdentE : Expr → Bool
  | .identE _ => true
  | _ => false

/-- C10: whenever a method or property decorator expression, or a computed
member key, takes the complex (cached) path and the class has a declared
name, every occurrence of that name inside the cached expression is
rewritten to the internal class-binding temporary before the initializing
assignment is recorded: the decorator-resolution loop records
`_dec = replaced(d)` (first conjunct), the computed-key path records
`key = replaced(e)` (second conjunct), and the replacement leaves zero
occurrences of the class name in the cached expression (third conjunct,
for the fresh binding distinct from the class name). -/
theorem claim_C10 (n ci : Ident) (s : St) (d : Expr) (ds : List Expr)
    (hni : isIdentE d = false) (hne : ci ≠ n) :
    (resolveDecs (some n) ci s (d :: ds) =
      (let s2 : St := ⟨s.uninitVars ++ [⟨"_dec", s.ctr + 1⟩], s.initVars,
                       s.exports, s.ctr + 1⟩
       let rest := resolveDecs (some n) ci s2 ds
       (rest.1, .identE ⟨"_dec", s.ctr + 1⟩ :: rest.2.1,
        .assign ⟨"_dec", s.ctr + 1⟩ (replE n ci d) :: rest.2.2))) ∧
    (methodKeyName (some n) ci s (.computed d) =
      (⟨s.uninitVars ++ [⟨"key", s.ctr + 1⟩], s.initVars, s.exports, s.ctr + 1⟩,
       .identE ⟨"key", s.ctr + 1⟩, [.assign ⟨"key", s.ctr + 1⟩ (replE n ci d)])) ∧
    cntE n (replE n ci d) = 0 := by
  refine ⟨?_, ?_, cntE_replE n ci hne d⟩
  · cases d <;>
      simp_all [resolveDecs, aliasIfRequired, freshIdent, replaceClsRef, isIdentE]
  · cases d <;>
      simp_all [methodKeyName, aliasIfRequired, freshIdent, replaceClsRef, isIdentE]

/-- C10 (witness): the rewrite applied to the concrete decorator expression
`A.f(A.x)` of a class named `A`. -/
theorem claim_C10_witness :
    isIdentE (Expr.call (.cexpr (.member (.identE ⟨"A", 0⟩) "f"))
        [.member (.identE ⟨"A", 0⟩) "x"]) = false ∧
    (⟨"_class", 5⟩ : Ident) ≠ (⟨"A", 0⟩ : Ident) ∧
    cntE ⟨"A", 0⟩ (replE ⟨"A", 0⟩ ⟨"_class", 5⟩
      (Expr.call (.cexpr (.member (.identE ⟨"A", 0⟩) "f"))
        [.member (.identE ⟨"A", 0⟩) "x"])) = 0 :=
  ⟨by decide, by decide,
   (claim_C10 ⟨"A", 0⟩ ⟨"_class", 5⟩ st0
     (Expr.call (.cexpr (.member (.identE ⟨"A", 0⟩) "f"))
       [.member (.identE ⟨"A", 0⟩) "x"]) []
     (by decide) (by decide)).2.2⟩

end SwcLegacyDec
